import Mathlib

/-!
Shallow embedding of the core of `kube-upgrade-advisor` (Go) in Lean 4,
together with proofs settling the frozen claims about its specification.

The embedding mirrors, definition by definition:
* `internal/knowledge` (version comparator, API knowledge base, chart
  knowledge base), from `internal/inventory/models.go`;
* `internal/analysis` (impact analyzer), from the `analysis` package file
  defining `ComputeUpgradeImpact` / `calculateOverallRisk`;
* `internal/planner` (`response.go`: plan skeleton, Kahn topological sort,
  timeline estimate).

Go maps are modelled as insertion sequences with overwrite-on-same-key
semantics; the nondeterministic iteration order of a Go map is modelled by an
explicit enumeration parameter, constrained in the theorems to be a
permutation of the map's key set.  Go `int` is modelled as `Int` where
decrements below zero matter (Kahn in-degrees) and as `Nat` where the value
is a length.  Error returns are modelled with `Except`.
-/

namespace knowledge

/-- Decimal value of an ASCII digit, `none` for any other character. -/
def charDigit (c : Char) : Option Nat :=
  if 48 ≤ c.toNat ∧ c.toNat ≤ 57 then some (c.toNat - 48) else none

/-- Decimal reading of a character list: `some` iff the list is nonempty
and all characters are ASCII digits. -/
def natOfDigits (l : List Char) : Option Nat :=
  match l with
  | [] => none
  | _ =>
    l.foldl
      (fun acc c =>
        match acc, charDigit c with
        | some n, some d => some (n * 10 + d)
        | _, _ => none)
      (some 0)

/-- Go `strconv.Atoi` with the error ignored (the source discards the
error and keeps the zero value on failure): an optional sign followed by
decimal digits; anything else yields 0.  (Go clamps on 64-bit overflow;
the claims never involve such magnitudes, and both the code-side and the
spec-side parse in this file read digits the same way.) -/
def goAtoi (s : String) : Int :=
  match s.data with
  | '+' :: rest =>
    match natOfDigits rest with
    | some n => (n : Int)
    | none => 0
  | '-' :: rest =>
    match natOfDigits rest with
    | some n => -(n : Int)
    | none => 0
  | l =>
    match natOfDigits l with
    | some n => (n : Int)
    | none => 0

/-- `normalizeVersion`: remove a leading "v" prefix if present
(`strings.TrimPrefix(version, "v")`). -/
def normalizeVersion (version : String) : String :=
  match version.data with
  | 'v' :: rest => String.mk rest
  | _ => version

/-- Go `strings.Split` on a single separator character, character-list
level: `splitOnChar sep l` always returns at least one (possibly empty)
component. -/
def splitOnChar (sep : Char) : List Char → List (List Char)
  | [] => [[]]
  | c :: rest =>
    if c = sep then [] :: splitOnChar sep rest
    else
      match splitOnChar sep rest with
      | [] => [[c]]
      | h :: t => (c :: h) :: t

/-- Go `strings.Split(s, ".")`. -/
def goSplitDot (s : String) : List String :=
  (splitOnChar '.' s.data).map String.mk

/-- `parseVersion`: split on "."; if fewer than two components, return
(0, 0); otherwise `Atoi` of the first two components (errors ignored). -/
def parseVersion (version : String) : Int × Int :=
  match goSplitDot version with
  | p0 :: p1 :: _ => (goAtoi p0, goAtoi p1)
  | _ => (0, 0)

/-- The parse the specification describes: take the first two components,
each missing or non-numeric component defaulting to 0 individually.  Kept
separate from `parseVersion` only to compare the code against the spec
sentence of claim C7. -/
def parseVersionClaim (version : String) : Int × Int :=
  let parts := goSplitDot version
  (goAtoi (parts.getD 0 ""), goAtoi (parts.getD 1 ""))

/-- `isVersionGreaterOrEqual`: major.minor comparison of Kubernetes
versions, true iff `version >= minVersion`. -/
def isVersionGreaterOrEqual (version minVersion : String) : Bool :=
  let v1 := normalizeVersion version
  let v2 := normalizeVersion minVersion
  let p1 := parseVersion v1
  let p2 := parseVersion v2
  if p1.1 > p2.1 then true
  else if p1.1 < p2.1 then false
  else p1.2 ≥ p2.2

/-- Per-component comparison loop of `compareVersions`: index range is the
longer of the two component lists, a missing component reads as 0. -/
def cmpParts : List String → List String → Int
  | [], [] => 0
  | a :: as, b :: bs =>
    if goAtoi a > goAtoi b then 1
    else if goAtoi a < goAtoi b then -1
    else cmpParts as bs
  | a :: as, [] =>
    if goAtoi a > 0 then 1
    else if goAtoi a < 0 then -1
    else cmpParts as []
  | [], b :: bs =>
    if (0 : Int) > goAtoi b then 1
    else if (0 : Int) < goAtoi b then -1
    else cmpParts [] bs

/-- `compareVersions`: chart semantic-version comparison, 1 / -1 / 0.
Strips a leading "v" from each side (the source inlines the same
`strings.TrimPrefix` that `normalizeVersion` performs). -/
def compareVersions (v1 v2 : String) : Int :=
  cmpParts (goSplitDot (normalizeVersion v1)) (goSplitDot (normalizeVersion v2))

/-- `APIDeprecation` record of the API knowledge base. -/
structure APIDeprecation where
  group : String
  version : String
  kind : String
  deprecatedIn : String
  removedIn : String
  replacementAPI : String
  migrationNotes : String
deriving DecidableEq, Repr, Inhabited

/-- `makeKey`: string key of the deprecations map; an empty group is
rendered as "core". -/
def makeKey (group version kind : String) : String :=
  if group = "" then "core/" ++ version ++ "/" ++ kind
  else group ++ "/" ++ version ++ "/" ++ kind

/-- Lookup in the deprecations map built by `LoadFromFile`: the map is the
result of inserting each record of the file in order under its `makeKey`,
a later record with the same key overwriting an earlier one.  The fold
returns the last matching record, exactly the overwrite semantics. -/
def lookupDep (recs : List APIDeprecation) (key : String) : Option APIDeprecation :=
  recs.foldl (fun acc d => if makeKey d.group d.version d.kind = key then some d else acc) none

/-- `CheckDeprecation`: exact key lookup. -/
def CheckDeprecation (recs : List APIDeprecation) (group version kind : String) :
    Option APIDeprecation :=
  lookupDep recs (makeKey group version kind)

/-- `IsAPIRemoved`: a record exists and `targetVersion >= removedIn`. -/
def IsAPIRemoved (recs : List APIDeprecation) (group version kind targetVersion : String) : Bool :=
  match CheckDeprecation recs group version kind with
  | some dep => isVersionGreaterOrEqual targetVersion dep.removedIn
  | none => false

/-- `ChartCompatibility`: one chart release's compatibility entry. -/
structure ChartCompatibility where
  chartVersion : String
  minKubeVersion : String
  maxKubeVersion : String
  compatibleWith : List String
  knownIssues : List String
deriving DecidableEq, Repr, Inhabited

/-- `ChartInfo`: a chart with all its versions. -/
structure ChartInfo where
  chartName : String
  repository : String
  versions : List ChartCompatibility
deriving DecidableEq, Repr, Inhabited

/-- `ChartRecommendation` returned by `FindCompatibleChartVersion`. -/
structure ChartRecommendation where
  chartName : String
  currentVersion : String
  recommendedVersion : String
  isCompatible : Bool
  message : String
  knownIssues : List String
deriving DecidableEq, Repr, Inhabited

/-- Lookup in the charts map built by `LoadFromFile` (same
insert-with-overwrite semantics as `lookupDep`, keyed by chart name). -/
def lookupChart (charts : List ChartInfo) (name : String) : Option ChartInfo :=
  charts.foldl (fun acc c => if c.chartName = name then some c else acc) none

/-- The known-chart branch of `CheckCompatibility`: the version scan
returns at the first entry whose `ChartVersion` matches. -/
def checkCompatOfChart (chart : ChartInfo) (chartVersion kubeVersion : String) :
    Bool × List String :=
  match chart.versions.find? (fun compat => compat.chartVersion == chartVersion) with
  | none => (true, [])
  | some compat =>
    if compat.compatibleWith.any
        (fun compatVersion => normalizeVersion compatVersion == normalizeVersion kubeVersion) then
      (true, compat.knownIssues)
    else
      (false, compat.knownIssues)

/-- `CheckCompatibility`: unknown chart or unknown chart-version entry is
assumed compatible. -/
def CheckCompatibility (charts : List ChartInfo) (chartName chartVersion kubeVersion : String) :
    Bool × List String :=
  match lookupChart charts chartName with
  | none => (true, [])
  | some chart => checkCompatOfChart chart chartVersion kubeVersion

/-- Body of the `bestVersion` selection loop of `FindCompatibleChartVersion`:
skip entries not compatible with the target, skip entries with known
issues, otherwise keep the entry comparing highest by `compareVersions`. -/
def bestVersionFold (normalizedTarget : String)
    (best : Option ChartCompatibility) (compat : ChartCompatibility) :
    Option ChartCompatibility :=
  if !(compat.compatibleWith.any
      (fun compatVersion => normalizeVersion compatVersion == normalizedTarget)) then best
  else if compat.knownIssues.length > 0 then best
  else
    match best with
    | none => some compat
    | some b => if compareVersions compat.chartVersion b.chartVersion > 0 then some compat else best

/-- The `currentCompatible` / `currentIssues` pair computed by the first
loop of `FindCompatibleChartVersion`: the loop breaks at the first entry
matching the current chart version; `currentIssues` is set only when the
target is in that entry's compatible list. -/
def currentStateOf (chart : ChartInfo) (currentVersion normalizedTarget : String) :
    Bool × List String :=
  match chart.versions.find? (fun compat => compat.chartVersion == currentVersion) with
  | some compat =>
    if compat.compatibleWith.any
        (fun compatVersion => normalizeVersion compatVersion == normalizedTarget) then
      (true, compat.knownIssues)
    else (false, ([] : List String))
  | none => (false, ([] : List String))

/-- The known-chart branch of `FindCompatibleChartVersion`.  (The source
binds `normalizedTarget` and the current-version state to locals; here the
pure expressions are repeated instead.) -/
def findCompatibleOfChart (chart : ChartInfo)
    (chartName currentVersion targetK8sVersion : String) : ChartRecommendation :=
  if (currentStateOf chart currentVersion (normalizeVersion targetK8sVersion)).1
      && (currentStateOf chart currentVersion (normalizeVersion targetK8sVersion)).2.isEmpty then
    { chartName := chartName
      currentVersion := currentVersion
      recommendedVersion := ""
      isCompatible := true
      message := "Current version is compatible"
      knownIssues := [] }
  else
    match chart.versions.foldl (bestVersionFold (normalizeVersion targetK8sVersion)) none with
    | some bestVersion =>
      { chartName := chartName
        currentVersion := currentVersion
        recommendedVersion := bestVersion.chartVersion
        isCompatible := false
        message := "Upgrade required for Kubernetes " ++ targetK8sVersion
        knownIssues := (currentStateOf chart currentVersion (normalizeVersion targetK8sVersion)).2 }
    | none =>
      { chartName := chartName
        currentVersion := currentVersion
        recommendedVersion := ""
        isCompatible := false
        message := "No compatible version found for Kubernetes " ++ targetK8sVersion
        knownIssues := (currentStateOf chart currentVersion (normalizeVersion targetK8sVersion)).2 }

/-- `FindCompatibleChartVersion`: recommendation of a chart version for the
target Kubernetes version. -/
def FindCompatibleChartVersion (charts : List ChartInfo)
    (chartName currentVersion targetK8sVersion : String) : ChartRecommendation :=
  match lookupChart charts chartName with
  | none =>
    { chartName := chartName
      currentVersion := currentVersion
      recommendedVersion := ""
      isCompatible := true
      message := "Chart not in knowledge base - compatibility unknown"
      knownIssues := [] }
  | some chart => findCompatibleOfChart chart chartName currentVersion targetK8sVersion

/-- The string key a record is stored under. -/
def keyOf (d : APIDeprecation) : String := makeKey d.group d.version d.kind

/-- The (group, version, kind) identity of a record. -/
def tripleOf (d : APIDeprecation) : String × String × String := (d.group, d.version, d.kind)

/-- A string containing no "/" character (the separator of `makeKey`). -/
abbrev noSlash (s : String) : Prop := ∀ c ∈ s.data, c ≠ '/'

/-- A chart-version entry whose compatible set contains the target cluster
version (up to `normalizeVersion`), as tested by the chart queries. -/
def entryCompatibleWith (e : ChartCompatibility) (target : String) : Bool :=
  e.compatibleWith.any (fun compatVersion => normalizeVersion compatVersion == normalizeVersion target)

end knowledge

namespace analysis

/-- The `ImpactLevel` string constants. -/
def ImpactCritical : String := "critical"

/-- Impact level "high". -/
def ImpactHigh : String := "high"

/-- Impact level "medium". -/
def ImpactMedium : String := "medium"

/-- Impact level "low". -/
def ImpactLow : String := "low"

/-- Impact level "none". -/
def ImpactNone : String := "none"

/-- `DeprecatedAPIImpact`: one deprecated-API finding. -/
structure DeprecatedAPIImpact where
  group : String
  version : String
  kind : String
  affectedCount : Nat
  impactLevel : String
  removedIn : String
  replacementAPI : String
  migrationNotes : String
  source : String
deriving DecidableEq, Repr, Inhabited

/-- `ChartImpact`: one incompatible-chart finding.  The Go field
`Namespace` is renamed `namespaceName` (Lean keyword). -/
structure ChartImpact where
  chartName : String
  namespaceName : String
  currentVersion : String
  recommendedVersion : String
  impactLevel : String
  issues : List String
  message : String
deriving DecidableEq, Repr, Inhabited

/-- `ImpactAssessment`: analyzer output, planner input. -/
structure ImpactAssessment where
  clusterID : String
  currentVersion : String
  targetVersion : String
  deprecatedManifestAPIs : List DeprecatedAPIImpact
  deprecatedCRDAPIs : List DeprecatedAPIImpact
  incompatibleCharts : List ChartImpact
  overallRisk : String
  totalIssues : Nat
deriving DecidableEq, Repr, Inhabited

/-- One manifest API usage row, as queried from the store. -/
structure ManifestAPIRec where
  group : String
  version : String
  kind : String
deriving DecidableEq, Repr, Inhabited

/-- One CRD row with its served versions, as queried from the store. -/
structure CRDRec where
  group : String
  kind : String
  versions : List String
deriving DecidableEq, Repr, Inhabited

/-- One Helm release row, as queried from the store.  The Go field
`Namespace` is renamed `namespaceName` (Lean keyword). -/
structure HelmReleaseRec where
  chart : String
  chartVersion : String
  namespaceName : String
deriving DecidableEq, Repr, Inhabited

/-- The cluster record with its inventory, as materialized by the store
queries inside `ComputeUpgradeImpact` (store access itself is an excluded
collaborator). -/
structure ClusterRec where
  kubeVersion : String
  manifestApis : List ManifestAPIRec
  crds : List CRDRec
  helmReleases : List HelmReleaseRec
deriving DecidableEq, Repr, Inhabited

/-- `calculateOverallRisk`: fixed priority cascade over the assessment. -/
def calculateOverallRisk (assessment : ImpactAssessment) : String :=
  if assessment.totalIssues = 0 then ImpactNone
  else
    let criticalCount :=
      assessment.deprecatedManifestAPIs.countP (fun api => api.impactLevel == ImpactCritical)
    if criticalCount > 0 then ImpactCritical
    else if assessment.deprecatedCRDAPIs.length > 0 || assessment.incompatibleCharts.length > 0 then
      ImpactHigh
    else ImpactMedium

/-- The manifest-API check of `ComputeUpgradeImpact`: the loop body over
`manifestAPIs`.  In the source a successful `CheckDeprecation` is
guaranteed whenever `IsAPIRemoved` returned true (Go discards the found
flag); the unreachable `none` arm emits nothing. -/
def manifestImpactOf (apiKB : List knowledge.APIDeprecation) (targetVersion : String)
    (api : ManifestAPIRec) : Option DeprecatedAPIImpact :=
  if knowledge.IsAPIRemoved apiKB api.group api.version api.kind targetVersion then
    match knowledge.CheckDeprecation apiKB api.group api.version api.kind with
    | some dep => some
        { group := api.group
          version := api.version
          kind := api.kind
          affectedCount := 1
          impactLevel := ImpactCritical
          removedIn := dep.removedIn
          replacementAPI := dep.replacementAPI
          migrationNotes := dep.migrationNotes
          source := "manifest" }
    | none => none
  else none

/-- The CRD check of `ComputeUpgradeImpact`: the inner loop body over one
CRD's served versions. -/
def crdImpactOf (apiKB : List knowledge.APIDeprecation) (targetVersion : String)
    (crd : CRDRec) (version : String) : Option DeprecatedAPIImpact :=
  if knowledge.IsAPIRemoved apiKB crd.group version crd.kind targetVersion then
    match knowledge.CheckDeprecation apiKB crd.group version crd.kind with
    | some dep => some
        { group := crd.group
          version := version
          kind := crd.kind
          affectedCount := 1
          impactLevel := ImpactHigh
          removedIn := dep.removedIn
          replacementAPI := dep.replacementAPI
          migrationNotes := dep.migrationNotes
          source := "crd" }
    | none => none
  else none

/-- The Helm release check of `ComputeUpgradeImpact`: the loop body over
releases. -/
def chartImpactOf (chartKB : List knowledge.ChartInfo) (targetVersion : String)
    (release : HelmReleaseRec) : Option ChartImpact :=
  if !(knowledge.FindCompatibleChartVersion chartKB release.chart release.chartVersion
      targetVersion).isCompatible then some
      { chartName := release.chart
        namespaceName := release.namespaceName
        currentVersion := release.chartVersion
        recommendedVersion := (knowledge.FindCompatibleChartVersion chartKB release.chart
            release.chartVersion targetVersion).recommendedVersion
        impactLevel := ImpactHigh
        issues := (knowledge.FindCompatibleChartVersion chartKB release.chart
            release.chartVersion targetVersion).knownIssues
        message := (knowledge.FindCompatibleChartVersion chartKB release.chart
            release.chartVersion targetVersion).message }
  else none

/-- The assessment as built by `ComputeUpgradeImpact` just before
`OverallRisk` is filled in (its zero value is the empty string). -/
def assessBase (apiKB : List knowledge.APIDeprecation) (chartKB : List knowledge.ChartInfo)
    (clusterID : String) (cluster : ClusterRec) (targetVersion : String) : ImpactAssessment :=
  let manifestImpacts := cluster.manifestApis.filterMap (manifestImpactOf apiKB targetVersion)
  let crdImpacts := cluster.crds.flatMap (fun crd =>
    crd.versions.filterMap (crdImpactOf apiKB targetVersion crd))
  let chartImpacts := cluster.helmReleases.filterMap (chartImpactOf chartKB targetVersion)
  { clusterID := clusterID
    currentVersion := cluster.kubeVersion
    targetVersion := targetVersion
    deprecatedManifestAPIs := manifestImpacts
    deprecatedCRDAPIs := crdImpacts
    incompatibleCharts := chartImpacts
    overallRisk := ""
    totalIssues := manifestImpacts.length + crdImpacts.length + chartImpacts.length }

/-- `ComputeUpgradeImpact` as a pure function of the loaded knowledge
bases and the cluster's materialized inventory (store access is an
excluded collaborator). -/
def ComputeUpgradeImpact (apiKB : List knowledge.APIDeprecation)
    (chartKB : List knowledge.ChartInfo) (clusterID : String) (cluster : ClusterRec)
    (targetVersion : String) : ImpactAssessment :=
  { assessBase apiKB chartKB clusterID cluster targetVersion with
      overallRisk :=
        calculateOverallRisk (assessBase apiKB chartKB clusterID cluster targetVersion) }

/-- The risk cascade exactly as the specification sentence states it:
None on zero issues, else Critical on any manifest-origin impact, else High
on any CRD-origin or chart impact, else Medium.  Spec-side definition, to
be compared with `calculateOverallRisk`. -/
def riskCascadeClaim (a : ImpactAssessment) : String :=
  if a.totalIssues = 0 then ImpactNone
  else if a.deprecatedManifestAPIs.length > 0 then ImpactCritical
  else if a.deprecatedCRDAPIs.length > 0 ∨ a.incompatibleCharts.length > 0 then ImpactHigh
  else ImpactMedium

end analysis

namespace planner

/-- `Action`: one human-readable action of a step. -/
structure Action where
  command : String
  description : String
  required : Bool
deriving DecidableEq, Repr, Inhabited

/-- `UpgradeStep`: a node of the plan graph.  `StepType` is a Go string
type, modelled as `String`; `Order` is filled by the topological sort. -/
structure UpgradeStep where
  id : String
  description : String
  stepType : String
  dependencies : List String
  impact : String
  actions : List Action
  order : Nat
deriving DecidableEq, Repr, Inhabited

/-- `UpgradePlan`: the complete plan. -/
structure UpgradePlan where
  fromVersion : String
  toVersion : String
  steps : List UpgradeStep
  orderedUpgradeSteps : List String
  timeline : String
  totalSteps : Nat
deriving DecidableEq, Repr, Inhabited

/-- Go `strings.ReplaceAll` for a single-character pattern and
replacement. -/
def replChar (f t : Char) (s : String) : String :=
  String.mk (s.data.map (fun c => if c = f then t else c))

/-- Go `strings.ToLower` (ASCII case mapping, which covers every string
the claims involve). -/
def lowerString (s : String) : String :=
  String.mk (s.data.map Char.toLower)

/-- `sanitizeID`: replace "/", ".", " " by "-", then lower-case. -/
def sanitizeID (s : String) : String :=
  lowerString (replChar ' ' '-' (replChar '.' '-' (replChar '/' '-' s)))

/-- Go `strings.Join` with a separator. -/
def joinSep (sep : String) : List String → String
  | [] => ""
  | [x] => x
  | x :: rest => x ++ sep ++ joinSep sep rest

/-- `addNode`: insert into the `graph` map keyed by `step.ID`, overwriting
an existing node with the same id. -/
def addNode (graph : List UpgradeStep) (step : UpgradeStep) : List UpgradeStep :=
  graph.filter (fun t => t.id != step.id) ++ [step]

/-- `addEdge`: append one directed edge occurrence; the `edges` map of
slices is modelled as the list of its (from, to) pairs in insertion
order. -/
def addEdge (edges : List (String × String)) (a b : String) : List (String × String) :=
  edges ++ [(a, b)]

/-- Grouping key of `createAPIMigrationSteps`: `"group/version/kind"`
(no "core" substitution here, unlike `knowledge.makeKey`). -/
def apiKeyOf (api : analysis.DeprecatedAPIImpact) : String :=
  api.group ++ "/" ++ api.version ++ "/" ++ api.kind

/-- One insertion into the `apiMap` Go map (overwrite on equal key). -/
def apiMapUpsert (m : List (String × analysis.DeprecatedAPIImpact))
    (api : analysis.DeprecatedAPIImpact) : List (String × analysis.DeprecatedAPIImpact) :=
  let key := apiKeyOf api
  if m.any (fun p => p.1 == key) then
    m.map (fun p => if p.1 == key then (key, api) else p)
  else m ++ [(key, api)]

/-- The `apiMap` of `createAPIMigrationSteps` as an association list with
distinct keys; Go's nondeterministic iteration order over it is modelled by
an explicit enumeration parameter constrained to be a permutation of this
list. -/
def apiPairs (a : analysis.ImpactAssessment) : List (String × analysis.DeprecatedAPIImpact) :=
  a.deprecatedManifestAPIs.foldl apiMapUpsert []

/-- The step id of an API migration step. -/
def migrateApiId (key : String) : String := "migrate-api-" ++ sanitizeID key

/-- The step id of a chart upgrade step. -/
def upgradeChartId (name : String) : String := "upgrade-chart-" ++ sanitizeID name

/-- One API migration step of `createAPIMigrationSteps`. -/
def mkAPIMigrationStep (key : String) (api : analysis.DeprecatedAPIImpact) : UpgradeStep :=
  let gv := if api.group == "" then api.version else api.group ++ "/" ++ api.version
  { id := migrateApiId key
    description := "Migrate " ++ gv ++ " " ++ api.kind ++ " to " ++ api.replacementAPI
    stepType := "api_migration"
    dependencies := []
    impact := api.impactLevel
    actions :=
      [ { command := "kubectl get " ++ api.kind ++ " -o yaml > backup-" ++ api.kind.toLower ++ ".yaml"
          description := "Backup existing " ++ api.kind ++ " resources"
          required := true }
      , { command := "kubectl convert -f backup-" ++ api.kind.toLower ++ ".yaml --output-version="
              ++ api.replacementAPI
          description := "Convert to " ++ api.replacementAPI
          required := true }
      , { command := "Manual review required"
          description := api.migrationNotes
          required := true } ]
    order := 0 }

/-- `createAPIMigrationSteps`, given an enumeration of the `apiMap`. -/
def createAPIMigrationSteps (apiEnum : List (String × analysis.DeprecatedAPIImpact)) :
    List UpgradeStep :=
  apiEnum.map (fun p => mkAPIMigrationStep p.1 p.2)

/-- One chart upgrade step of `createChartUpgradeSteps`. -/
def mkChartUpgradeStep (chart : analysis.ChartImpact) : UpgradeStep :=
  { id := upgradeChartId chart.chartName
    description := "Upgrade " ++ chart.chartName ++ " from " ++ chart.currentVersion ++ " to "
        ++ chart.recommendedVersion
    stepType := "chart_upgrade"
    dependencies := []
    impact := chart.impactLevel
    actions :=
      (if chart.recommendedVersion != "" then
        [ { command := "helm upgrade " ++ chart.chartName ++ " " ++ chart.chartName
                ++ " --version " ++ chart.recommendedVersion ++ " -n " ++ chart.namespaceName
            description := "Upgrade to version " ++ chart.recommendedVersion
            required := true } ]
      else
        [ { command := "Manual intervention required"
            description := chart.message
            required := true } ])
      ++ (if chart.issues.length > 0 then
        [ { command := "Review known issues"
            description := joinSep "; " chart.issues
            required := true } ]
      else [])
    order := 0 }

/-- `createChartUpgradeSteps`: one step per `IncompatibleCharts` entry, in
slice order. -/
def createChartUpgradeSteps (a : analysis.ImpactAssessment) : List UpgradeStep :=
  a.incompatibleCharts.map mkChartUpgradeStep

/-- The `precheck` step. -/
def precheckStep : UpgradeStep :=
  { id := "precheck"
    description := "Pre-upgrade validation and checks"
    stepType := "precheck"
    dependencies := []
    impact := analysis.ImpactLow
    actions :=
      [ { command := "kubectl version", description := "Verify cluster connectivity", required := true }
      , { command := "kubectl get nodes", description := "Check node status", required := true } ]
    order := 0 }

/-- The `backup` step. -/
def backupStep : UpgradeStep :=
  { id := "backup"
    description := "Backup cluster state and critical resources"
    stepType := "backup"
    dependencies := ["precheck"]
    impact := analysis.ImpactHigh
    actions :=
      [ { command := "velero backup create pre-upgrade-backup --wait"
          description := "Create full cluster backup", required := true }
      , { command := "etcdctl snapshot save /backup/etcd-snapshot.db"
          description := "Backup etcd", required := true } ]
    order := 0 }

/-- The `cluster-upgrade` step; its dependency list is extended with every
API migration and chart upgrade step id, in construction order. -/
def clusterUpgradeStep (a : analysis.ImpactAssessment) (apiIds chartIds : List String) :
    UpgradeStep :=
  { id := "cluster-upgrade"
    description := "Upgrade Kubernetes from " ++ a.currentVersion ++ " to " ++ a.targetVersion
    stepType := "cluster_upgrade"
    dependencies := (["backup"] ++ apiIds) ++ chartIds
    impact := analysis.ImpactCritical
    actions :=
      [ { command := "kubeadm upgrade plan", description := "Review upgrade plan", required := true }
      , { command := "kubeadm upgrade apply " ++ a.targetVersion
          description := "Apply Kubernetes upgrade", required := true }
      , { command := "kubectl drain <node> --ignore-daemonsets"
          description := "Drain nodes before upgrade", required := true }
      , { command := "kubectl uncordon <node>"
          description := "Uncordon nodes after upgrade", required := true } ]
    order := 0 }

/-- The `validation` step. -/
def validationStep : UpgradeStep :=
  { id := "validation"
    description := "Post-upgrade validation"
    stepType := "validation"
    dependencies := ["cluster-upgrade"]
    impact := analysis.ImpactMedium
    actions :=
      [ { command := "kubectl get nodes", description := "Verify all nodes are ready", required := true }
      , { command := "kubectl get pods --all-namespaces"
          description := "Check all pods are running", required := true }
      , { command := "kubectl api-resources", description := "Verify API resources", required := true } ]
    order := 0 }

/-- API migration steps with the "backup" dependency appended, as in the
`GeneratePlan` loop. -/
def planApiSteps (apiEnum : List (String × analysis.DeprecatedAPIImpact)) : List UpgradeStep :=
  (createAPIMigrationSteps apiEnum).map
    (fun s => { s with dependencies := s.dependencies ++ ["backup"] })

/-- Chart upgrade steps with "backup" and every API migration id appended
to their dependencies, as in the `GeneratePlan` loop. -/
def planChartSteps (a : analysis.ImpactAssessment) (apiSteps : List UpgradeStep) :
    List UpgradeStep :=
  (createChartUpgradeSteps a).map
    (fun s => { s with dependencies :=
        (s.dependencies ++ ["backup"]) ++ apiSteps.map (fun t => t.id) })

/-- The node map of `GeneratePlan`, after all `addNode` calls in source
order: precheck, backup, API migrations, chart upgrades, cluster-upgrade,
validation. -/
def planGraph (a : analysis.ImpactAssessment)
    (apiEnum : List (String × analysis.DeprecatedAPIImpact)) : List UpgradeStep :=
  let apiSteps := planApiSteps apiEnum
  let chartSteps := planChartSteps a apiSteps
  let g := addNode [] precheckStep
  let g := addNode g backupStep
  let g := apiSteps.foldl addNode g
  let g := chartSteps.foldl addNode g
  let g := addNode g
    (clusterUpgradeStep a (apiSteps.map (fun s => s.id)) (chartSteps.map (fun s => s.id)))
  addNode g validationStep

/-- The edge list of `GeneratePlan`, after all `addEdge` calls in source
order.  Note the source adds no `backup -> chart` edge (only the
dependency list mentions it), and adds one `api -> chart` edge per
(chart step, API step) pair. -/
def planEdges (a : analysis.ImpactAssessment)
    (apiEnum : List (String × analysis.DeprecatedAPIImpact)) : List (String × String) :=
  let apiSteps := planApiSteps apiEnum
  let chartSteps := planChartSteps a apiSteps
  let e := addEdge [] "precheck" "backup"
  let e := apiSteps.foldl (fun e s => addEdge e "backup" s.id) e
  let e := chartSteps.foldl (fun e s => apiSteps.foldl (fun e t => addEdge e t.id s.id) e) e
  let e := apiSteps.foldl (fun e s => addEdge e s.id "cluster-upgrade") e
  let e := chartSteps.foldl (fun e s => addEdge e s.id "cluster-upgrade") e
  addEdge e "cluster-upgrade" "validation"

/-- In-degree of a node: number of edge occurrences targeting it (the Go
`inDegree` map reads 0 for a key never incremented). -/
def inDegreeOf (edges : List (String × String)) (n : String) : Int :=
  ((edges.filter (fun p => p.2 == n)).length : Int)

/-- Key set of the Go `inDegree` map: all graph ids plus all edge targets
(incrementing a missing key creates it). -/
def kahnKeys (graph : List UpgradeStep) (edges : List (String × String)) : List String :=
  (graph.map (fun s => s.id) ++ edges.map (fun p => p.2)).dedup

/-- Lexicographic character-list comparison underlying Go string order
(Go compares UTF-8 byte sequences; on the scalar values compared here the
orders agree). -/
def leChars : List Char → List Char → Bool
  | [], _ => true
  | _ :: _, [] => false
  | a :: as, b :: bs =>
    if a < b then true
    else if b < a then false
    else leChars as bs

/-- The string order `sort.Strings` sorts by. -/
def stringLe (a b : String) : Prop := leChars a.data b.data = true

instance : DecidableRel stringLe :=
  fun a b => inferInstanceAs (Decidable (leChars a.data b.data = true))

instance : IsTotal String stringLe := by
  constructor
  intro a b
  show leChars a.data b.data = true ∨ leChars b.data a.data = true
  generalize a.data = x
  generalize b.data = y
  induction x generalizing y with
  | nil => left; rfl
  | cons c cs ih =>
    cases y with
    | nil => right; rfl
    | cons d ds =>
      rcases lt_trichotomy c d with h | h | h
      · left; simp [leChars, h]
      · subst h
        rcases ih ds with h2 | h2
        · left; simpa [leChars, lt_irrefl] using h2
        · right; simpa [leChars, lt_irrefl] using h2
      · right; simp [leChars, h]

instance : IsTrans String stringLe := by
  constructor
  intro a b c
  show leChars a.data b.data = true → leChars b.data c.data = true → leChars a.data c.data = true
  generalize a.data = x
  generalize b.data = y
  generalize c.data = z
  induction x generalizing y z with
  | nil => intro _ _; rfl
  | cons p ps ih =>
    intro hab hbc
    cases y with
    | nil => simp [leChars] at hab
    | cons q qs =>
      cases z with
      | nil => simp [leChars] at hbc
      | cons r rs =>
        rcases lt_trichotomy p q with hpq | hpq | hpq
        · rcases lt_trichotomy q r with hqr | hqr | hqr
          · simp [leChars, lt_trans hpq hqr]
          · subst hqr; simp [leChars, hpq]
          · simp [leChars, lt_asymm hqr, hqr] at hbc
        · subst hpq
          rcases lt_trichotomy p r with hpr | hpr | hpr
          · simp [leChars, hpr]
          · subst hpr
            simp only [leChars, if_neg (lt_irrefl _)] at hab hbc ⊢
            exact ih qs rs hab hbc
          · simp [leChars, lt_asymm hpr, hpr] at hbc
        · simp [leChars, lt_asymm hpq, hpq] at hab

instance : IsAntisymm String stringLe := by
  constructor
  intro a b hab hba
  apply String.ext
  revert hab hba
  show leChars a.data b.data = true → leChars b.data a.data = true → a.data = b.data
  generalize a.data = x
  generalize b.data = y
  induction x generalizing y with
  | nil =>
    intro _ hba
    cases y with
    | nil => rfl
    | cons d ds => simp [leChars] at hba
  | cons c cs ih =>
    intro hab hba
    cases y with
    | nil => simp [leChars] at hab
    | cons d ds =>
      rcases lt_trichotomy c d with h | h | h
      · simp [leChars, lt_asymm h, h] at hba
      · subst h
        simp only [leChars, if_neg (lt_irrefl _)] at hab hba
        rw [ih ds hab hba]
      · simp [leChars, lt_asymm h, h] at hab

/-- Go `sort.Strings`: the ascending reordering of the list. -/
def sortStrings (l : List String) : List String :=
  List.insertionSort stringLe l

/-- One neighbor visit of Kahn's inner loop: decrement the neighbor's
in-degree; if it reaches exactly 0, append it to the queue. -/
def decStep (st : (String → Int) × List String) (n : String) : (String → Int) × List String :=
  let v := st.1 n - 1
  (fun m => if m = n then v else st.1 m, if v = 0 then st.2 ++ [n] else st.2)

/-- Successor list of a node, in edge insertion order. -/
def neighborsOf (edges : List (String × String)) (current : String) : List String :=
  (edges.filter (fun p => p.1 == current)).map (fun p => p.2)

/-- The Kahn loop: sort the queue, pop the head, emit it with its order,
decrement its successors.  The Go `for len(queue) > 0` loop always
terminates (every node is enqueued at most once); `fuel` is chosen by the
caller strictly larger than any possible iteration count so the 0 arm is
never the exit taken on the runs the theorems speak about. -/
def kahnLoop (graph : List UpgradeStep) (edges : List (String × String)) :
    Nat → (String → Int) → List String → List UpgradeStep → List UpgradeStep
  | 0, _, _, result => result
  | fuel + 1, inDeg, queue, result =>
    match sortStrings queue with
    | [] => result
    | current :: rest =>
      let step :=
        match graph.find? (fun s => s.id == current) with
        | some s => { s with order := result.length }
        | none => default
      let st := (neighborsOf edges current).foldl decStep (inDeg, rest)
      kahnLoop graph edges fuel st.1 st.2 (result ++ [step])

/-- `topologicalSort`: Kahn's algorithm with lexicographic tie-break; the
`seedPerm` parameter is the iteration order of the `inDegree` map when the
initial queue is seeded. -/
def topologicalSort (graph : List UpgradeStep) (edges : List (String × String))
    (seedPerm : List String) : Except String (List UpgradeStep) :=
  let inDeg := inDegreeOf edges
  let queue := seedPerm.filter (fun id => inDeg id == 0)
  let fuel := graph.length + seedPerm.length + edges.length + 1
  let result := kahnLoop graph edges fuel inDeg queue []
  if result.length != graph.length then Except.error "cycle detected in dependency graph"
  else Except.ok result

/-- Rendering of `OrderedUpgradeSteps`: `"<i+1>. [<type>] <description>"`. -/
def renderSteps (i : Nat) : List UpgradeStep → List String
  | [] => []
  | s :: rest => (toString (i + 1) ++ ". [" ++ s.stepType ++ "] " ++ s.description)
      :: renderSteps (i + 1) rest

/-- `estimateTimeline`: 30 minutes per step, truncated to whole hours. -/
def estimateTimeline (stepCount : Nat) : String :=
  let hours := stepCount * 30 / 60
  if hours < 1 then "Less than 1 hour"
  else if hours = 1 then "Approximately 1 hour"
  else "Approximately " ++ toString hours ++ " hours"

/-- `GeneratePlan` as a pure function of the assessment and the two map
iteration orders: `apiEnum` enumerates the `apiMap` of
`createAPIMigrationSteps`, `seedPerm` enumerates the `inDegree` map of
`topologicalSort`. -/
def GeneratePlan (a : analysis.ImpactAssessment)
    (apiEnum : List (String × analysis.DeprecatedAPIImpact)) (seedPerm : List String) :
    Except String UpgradePlan :=
  let graph := planGraph a apiEnum
  let edges := planEdges a apiEnum
  match topologicalSort graph edges seedPerm with
  | Except.error e => Except.error ("failed to create upgrade plan: " ++ e)
  | Except.ok orderedSteps =>
    Except.ok
      { fromVersion := a.currentVersion
        toVersion := a.targetVersion
        steps := orderedSteps
        orderedUpgradeSteps := renderSteps 0 orderedSteps
        timeline := estimateTimeline orderedSteps.length
        totalSteps := orderedSteps.length }

/-- The claim-relevant view of a step: the two fields that
`OrderedUpgradeSteps` renders (type and description). -/
def stepView (s : UpgradeStep) : String × String := (s.stepType, s.description)

/-- Ids of a step list. -/
def idsOf (g : List UpgradeStep) : List String := g.map (fun s => s.id)

/-- Number of edge occurrences targeting `n`. -/
def cntTgt (e : List (String × String)) (n : String) : Nat :=
  (e.filter (fun p => p.2 == n)).length

/-- Number of edge occurrences targeting `n` whose source is in `em`. -/
def cntEm (e : List (String × String)) (em : List String) (n : String) : Nat :=
  (e.filter (fun p => p.2 == n && decide (p.1 ∈ em))).length

/-- A rank function on the step-id families of the fixed skeleton, keyed
by the (pairwise distinct) first characters of the six id shapes:
precheck, backup, migrate-api-*, upgrade-chart-*, cluster-upgrade,
validation.  Every edge `GeneratePlan` adds goes strictly up in rank, so
the graph is acyclic.  Proof device, not part of the source. -/
def kahnRank (s : String) : Nat :=
  match s.data.head? with
  | some c =>
    if c = 'p' then 0
    else if c = 'b' then 1
    else if c = 'm' then 2
    else if c = 'u' then 3
    else if c = 'c' then 4
    else 5
  | none => 5

/-- The loop invariant of `kahnLoop` (state: in-degrees `d`, queue `q`,
emitted steps `r`): `d` counts in-edges from not-yet-emitted sources;
emitted ids and queue are duplicate-free and within the graph; every
untouched node retains positive in-degree; queued nodes sit at exactly 0
and emitted nodes at or below 0. -/
def kahnInv (g : List UpgradeStep) (e : List (String × String))
    (d : String → Int) (q : List String) (r : List UpgradeStep) : Prop :=
  (∀ n, d n = (cntTgt e n : Int) - (cntEm e (idsOf r) n : Int)) ∧
  (idsOf r ++ q).Nodup ∧
  (∀ n ∈ q, n ∈ idsOf g) ∧
  (∀ n ∈ idsOf r, n ∈ idsOf g) ∧
  (∀ n ∈ idsOf g, n ∉ idsOf r → n ∉ q → 0 < d n) ∧
  (∀ n ∈ q, d n = 0) ∧
  (∀ n ∈ idsOf r, d n ≤ 0)

/-- The node insertion sequence of `GeneratePlan`, in source order. -/
def planSeq (a : analysis.ImpactAssessment)
    (apiEnum : List (String × analysis.DeprecatedAPIImpact)) : List UpgradeStep :=
  [precheckStep, backupStep] ++ planApiSteps apiEnum
    ++ planChartSteps a (planApiSteps apiEnum)
    ++ [clusterUpgradeStep a ((planApiSteps apiEnum).map (fun s => s.id))
          ((planChartSteps a (planApiSteps apiEnum)).map (fun s => s.id)),
        validationStep]

/-- Map lookup in the node map. -/
def lookupG (g : List UpgradeStep) (i : String) : Option UpgradeStep :=
  g.find? (fun s => s.id == i)

end planner

/-! Concrete instances used by counterexamples and witnesses. -/

/-- A knowledge base holding one record whose group is the literal string
"core"; `makeKey` renders the empty group as "core" as well, so the key of
this record collides with the key of a query for the core group. -/
def c1KB : List knowledge.APIDeprecation :=
  [{ group := "core", version := "v1", kind := "Pod", deprecatedIn := "1.19",
     removedIn := "1.22", replacementAPI := "policy/v1", migrationNotes := "n" }]

/-- A well-formed knowledge base (slash-free components, no literal "core"
group, distinct triples) used to instantiate the amended C1 theorem. -/
def c1WitnessKB : List knowledge.APIDeprecation :=
  [{ group := "networking.k8s.io", version := "v1beta1", kind := "Ingress",
     deprecatedIn := "1.19", removedIn := "1.22",
     replacementAPI := "networking.k8s.io/v1", migrationNotes := "use v1" },
   { group := "", version := "v1", kind := "ComponentStatus",
     deprecatedIn := "1.19", removedIn := "1.99",
     replacementAPI := "", migrationNotes := "" }]

/-- The `prometheus` chart of the witness knowledge base: an issue-free
entry compatible with 1.25 (25.0.0) and an entry with known issues. -/
def c5Prom : knowledge.ChartInfo :=
  { chartName := "prometheus"
    repository := "r"
    versions :=
      [{ chartVersion := "20.0.0", minKubeVersion := "", maxKubeVersion := ""
         compatibleWith := ["1.21", "1.22"], knownIssues := [] },
       { chartVersion := "24.0.0", minKubeVersion := "", maxKubeVersion := ""
         compatibleWith := ["1.25"], knownIssues := ["crash on 1.25"] },
       { chartVersion := "25.0.0", minKubeVersion := "", maxKubeVersion := ""
         compatibleWith := ["1.25"], knownIssues := [] }] }

/-- The `broken` chart of the witness knowledge base: no issue-free entry
compatible with 1.25. -/
def c5Broken : knowledge.ChartInfo :=
  { chartName := "broken"
    repository := "r"
    versions :=
      [{ chartVersion := "1.0.0", minKubeVersion := "", maxKubeVersion := ""
         compatibleWith := ["1.25"], knownIssues := ["bad"] },
       { chartVersion := "2.0.0", minKubeVersion := "", maxKubeVersion := ""
         compatibleWith := ["1.24"], knownIssues := [] }] }

/-- A chart knowledge base for the C5/C6 witnesses. -/
def c5KB : List knowledge.ChartInfo := [c5Prom, c5Broken]

/-- A cluster inventory for the C6 witness: one release of a chart that is
absent from the chart knowledge base, and one manifest API usage plus one
CRD version that are absent from the API knowledge base. -/
def c6Cluster : analysis.ClusterRec :=
  { kubeVersion := "1.24"
    manifestApis := [{ group := "acme.io", version := "v1", kind := "Widget" }]
    crds := [{ group := "acme.io", kind := "Widget", versions := ["v1", "v2"] }]
    helmReleases := [{ chart := "unknown-chart", chartVersion := "1.0.0", namespaceName := "default" }] }

/-- An empty impact assessment (scenario A shape). -/
def emptyAssessment : analysis.ImpactAssessment :=
  { clusterID := "c", currentVersion := "1.24", targetVersion := "1.25",
    deprecatedManifestAPIs := [], deprecatedCRDAPIs := [], incompatibleCharts := [],
    overallRisk := "none", totalIssues := 0 }

/-- One incompatible-chart finding named `foo`. -/
def fooChartImpact : analysis.ChartImpact :=
  { chartName := "foo", namespaceName := "ns1", currentVersion := "1.0",
    recommendedVersion := "2.0", impactLevel := "high", issues := [], message := "m" }

/-- C2 counterexample input: two incompatible-chart entries with the same
chart name (the same chart deployed in two namespaces); both map to the
step id `upgrade-chart-foo`, which the node map stores only once. -/
def c2Assessment : analysis.ImpactAssessment :=
  { emptyAssessment with
      incompatibleCharts :=
        [fooChartImpact, { fooChartImpact with namespaceName := "ns2", currentVersion := "1.1" }]
      totalIssues := 2, overallRisk := "high" }

/-- A seed enumeration for the C2 counterexample run. -/
def c2Seed : List String :=
  planner.kahnKeys (planner.planGraph c2Assessment []) (planner.planEdges c2Assessment [])

/-- A manifest-origin deprecated-API finding with group `Apps`. -/
def appsImpact : analysis.DeprecatedAPIImpact :=
  { group := "Apps", version := "v1beta1", kind := "Deployment", affectedCount := 1,
    impactLevel := "critical", removedIn := "1.16", replacementAPI := "apps/v1",
    migrationNotes := "n", source := "manifest" }

/-- C3 counterexample input: two manifest APIs whose keys differ only in
the case of the group; `sanitizeID` lower-cases both to the same step id,
so the surviving node (and its description) depends on the `apiMap`
iteration order. -/
def c3Assessment : analysis.ImpactAssessment :=
  { emptyAssessment with
      deprecatedManifestAPIs := [appsImpact, { appsImpact with group := "apps" }]
      totalIssues := 2, overallRisk := "critical" }

/-- First enumeration of the C3 `apiMap`. -/
def c3Enum1 : List (String × analysis.DeprecatedAPIImpact) := planner.apiPairs c3Assessment

/-- Second enumeration of the C3 `apiMap` (reversed iteration order). -/
def c3Enum2 : List (String × analysis.DeprecatedAPIImpact) := (planner.apiPairs c3Assessment).reverse

/-- Seed enumeration for the first C3 run. -/
def c3Seed1 : List String :=
  planner.kahnKeys (planner.planGraph c3Assessment c3Enum1) (planner.planEdges c3Assessment c3Enum1)

/-- Seed enumeration for the second C3 run. -/
def c3Seed2 : List String :=
  planner.kahnKeys (planner.planGraph c3Assessment c3Enum2) (planner.planEdges c3Assessment c3Enum2)

/-- Witness assessment: one deprecated manifest API and one incompatible
chart, with distinct step ids. -/
def w8Assessment : analysis.ImpactAssessment :=
  { emptyAssessment with
      deprecatedManifestAPIs := [appsImpact]
      incompatibleCharts := [fooChartImpact]
      totalIssues := 2, overallRisk := "critical" }

/-- Witness `apiMap` enumeration. -/
def w8Enum : List (String × analysis.DeprecatedAPIImpact) := planner.apiPairs w8Assessment

/-- A second witness enumeration of the same `apiMap` (reversed). -/
def w8Enum2 : List (String × analysis.DeprecatedAPIImpact) := (planner.apiPairs w8Assessment).reverse

/-- Witness seed enumeration (a nontrivial permutation of the key set). -/
def w8Seed : List String :=
  (planner.kahnKeys (planner.planGraph w8Assessment w8Enum) (planner.planEdges w8Assessment w8Enum)).reverse

/-- Witness seed enumeration for the run driven by `w8Enum2`. -/
def w8Seed2 : List String :=
  planner.kahnKeys (planner.planGraph w8Assessment w8Enum2) (planner.planEdges w8Assessment w8Enum2)

/-! Theorems.  Helper lemmas come first; each claim is settled by exactly
one theorem (plus, where required, a witness or a counterexample). -/

namespace knowledge

theorem lookupDep_foldl (t : List APIDeprecation) (acc : Option APIDeprecation) (key : String) :
    List.foldl (fun a d => if makeKey d.group d.version d.kind = key then some d else a) acc t
      = (lookupDep t key).or acc := by
  induction t generalizing acc with
  | nil => simp [lookupDep]
  | cons r t ih =>
    show List.foldl _ (if makeKey r.group r.version r.kind = key then some r else acc) t = _
    rw [ih]
    have h2 : lookupDep (r :: t) key
        = (lookupDep t key).or (if makeKey r.group r.version r.kind = key then some r else none) := by
      show List.foldl _ (if makeKey r.group r.version r.kind = key then some r else none) t = _
      rw [ih]
    rw [h2]
    cases hl : lookupDep t key <;>
      by_cases hk : makeKey r.group r.version r.kind = key <;> simp [hk]

theorem sep_split_eq {α : Type} (sep : α) :
    ∀ (a b r rr : List α), (∀ c ∈ a, c ≠ sep) → (∀ c ∈ b, c ≠ sep) →
      a ++ sep :: r = b ++ sep :: rr → a = b ∧ r = rr := by
  intro a
  induction a with
  | nil =>
    intro b r rr _ hb h
    cases b with
    | nil => simpa using h
    | cons y ys =>
      simp only [List.nil_append, List.cons_append, List.cons.injEq] at h
      exact absurd h.1.symm (hb y (by simp))
  | cons x xs ih =>
    intro b r rr ha hb h
    cases b with
    | nil =>
      simp only [List.nil_append, List.cons_append, List.cons.injEq] at h
      exact absurd h.1 (ha x (by simp))
    | cons y ys =>
      simp only [List.cons_append, List.cons.injEq] at h
      obtain ⟨hxy, htail⟩ := h
      obtain ⟨h1, h2⟩ := ih ys r rr (fun c hc => ha c (by simp [hc]))
        (fun c hc => hb c (by simp [hc])) htail
      exact ⟨by simp [hxy, h1], h2⟩

theorem makeKey_eq (g v k : String) :
    makeKey g v k = (if g = "" then "core" else g) ++ "/" ++ v ++ "/" ++ k := by
  by_cases hg : g = "" <;> simp [makeKey, hg]

theorem key_data (a v k : String) :
    (a ++ "/" ++ v ++ "/" ++ k).data = a.data ++ '/' :: (v.data ++ '/' :: k.data) := by
  have hs : ("/" : String).data = ['/'] := rfl
  simp [String.data_append, hs]

theorem noSlash_core : noSlash "core" := by decide

theorem makeKey_inj {g1 v1 k1 g2 v2 k2 : String}
    (hg1 : noSlash g1) (hv1 : noSlash v1) (hc1 : g1 ≠ "core")
    (hg2 : noSlash g2) (hv2 : noSlash v2) (hc2 : g2 ≠ "core")
    (h : makeKey g1 v1 k1 = makeKey g2 v2 k2) : g1 = g2 ∧ v1 = v2 ∧ k1 = k2 := by
  rw [makeKey_eq, makeKey_eq] at h
  have hd := congrArg String.data h
  rw [key_data, key_data] at hd
  have henc1 : noSlash (if g1 = "" then "core" else g1) := by
    by_cases hg : g1 = ""
    · rw [if_pos hg]; exact noSlash_core
    · rw [if_neg hg]; exact hg1
  have henc2 : noSlash (if g2 = "" then "core" else g2) := by
    by_cases hg : g2 = ""
    · rw [if_pos hg]; exact noSlash_core
    · rw [if_neg hg]; exact hg2
  obtain ⟨he, hrest⟩ := sep_split_eq '/' _ _ _ _ henc1 henc2 hd
  obtain ⟨hv, hk⟩ := sep_split_eq '/' _ _ _ _ hv1 hv2 hrest
  refine ⟨?_, String.ext hv, String.ext hk⟩
  have hencs : (if g1 = "" then "core" else g1) = (if g2 = "" then "core" else g2) :=
    String.ext he
  by_cases h1 : g1 = "" <;> by_cases h2 : g2 = "" <;> simp [h1, h2] at hencs ⊢
  · exact absurd hencs.symm hc2
  · exact absurd hencs hc1
  · exact hencs

theorem keys_nodup {recs : List APIDeprecation}
    (hrecs : ∀ d ∈ recs, noSlash d.group ∧ noSlash d.version ∧ d.group ≠ "core")
    (hnd : (recs.map tripleOf).Nodup) : (recs.map keyOf).Nodup := by
  have hrecnd : recs.Nodup := List.Nodup.of_map _ hnd
  refine List.Nodup.map_on ?_ hrecnd
  intro x hx y hy hxy
  obtain ⟨hg, hv, hk⟩ := makeKey_inj (hrecs x hx).1 (hrecs x hx).2.1 (hrecs x hx).2.2
    (hrecs y hy).1 (hrecs y hy).2.1 (hrecs y hy).2.2 hxy
  exact List.inj_on_of_nodup_map hnd hx hy (by simp [tripleOf, hg, hv, hk])

theorem lookupDep_eq_some_iff :
    ∀ (recs : List APIDeprecation), (recs.map keyOf).Nodup →
      ∀ (key : String) (d : APIDeprecation),
        lookupDep recs key = some d ↔ d ∈ recs ∧ keyOf d = key := by
  intro recs
  induction recs with
  | nil => intro _ key d; simp [lookupDep]
  | cons r t ih =>
    intro hnd key d
    simp only [List.map_cons, List.nodup_cons] at hnd
    obtain ⟨hhead, htail⟩ := hnd
    have hcons : lookupDep (r :: t) key
        = (lookupDep t key).or (if makeKey r.group r.version r.kind = key then some r else none) := by
      show List.foldl _ (if makeKey r.group r.version r.kind = key then some r else none) t = _
      rw [lookupDep_foldl]
    rw [hcons]
    cases hl : lookupDep t key with
    | some x =>
      have hx := (ih htail key x).1 hl
      have hor : (some x).or (if makeKey r.group r.version r.kind = key then some r else none)
          = some x := rfl
      rw [hor]
      constructor
      · intro h
        cases h
        exact ⟨List.mem_cons_of_mem _ hx.1, hx.2⟩
      · rintro ⟨hdmem, hdkey⟩
        rcases List.mem_cons.1 hdmem with rfl | hdt
        · exfalso
          have hmem2 : keyOf x ∈ t.map keyOf := List.mem_map_of_mem keyOf hx.1
          rw [hx.2, ← hdkey] at hmem2
          exact hhead hmem2
        · have h2 := (ih htail key d).2 ⟨hdt, hdkey⟩
          rw [hl] at h2
          exact h2
    | none =>
      have hor : (Option.none).or (if makeKey r.group r.version r.kind = key then some r else none)
          = (if makeKey r.group r.version r.kind = key then some r else none) := rfl
      rw [hor]
      by_cases hk : makeKey r.group r.version r.kind = key
      · rw [if_pos hk]
        constructor
        · intro h
          cases h
          exact ⟨List.mem_cons_self _ _, hk⟩
        · rintro ⟨hdmem, hdkey⟩
          rcases List.mem_cons.1 hdmem with rfl | hdt
          · rfl
          · have h2 := (ih htail key d).2 ⟨hdt, hdkey⟩
            rw [hl] at h2
            cases h2
      · rw [if_neg hk]
        constructor
        · intro h; cases h
        · rintro ⟨hdmem, hdkey⟩
          rcases List.mem_cons.1 hdmem with rfl | hdt
          · exact absurd hdkey hk
          · have h2 := (ih htail key d).2 ⟨hdt, hdkey⟩
            rw [hl] at h2
            cases h2

end knowledge

/-- C1 counterexample: the claim requires `IsAPIRemoved` to return false
for every key with no record, but a knowledge base holding a record with
the literal group "core" answers true to a query for the empty (core)
group, whose triple has no record: `makeKey` maps both to "core/v1/Pod". -/
theorem C1_exact_key_counterexample :
    knowledge.IsAPIRemoved c1KB "" "v1" "Pod" "1.25" = true ∧
    ∀ d ∈ c1KB, ¬ (d.group = "" ∧ d.version = "v1" ∧ d.kind = "Pod") := by
  decide

/-- C1 (amended): over knowledge bases whose components are slash-free,
whose groups are not the literal "core", and whose triples are distinct —
so that `makeKey` is injective — `IsAPIRemoved(g,v,k,t)` is true iff a
record exists under exactly (g,v,k) with `isVersionGreaterOrEqual t
removedIn`; moreover on the (unique) matching record the result equals the
`removedIn` comparison, hence is false for every target strictly below it. -/
theorem C1_isAPIRemoved_amended (recs : List knowledge.APIDeprecation) (g v k t : String)
    (hrecs : ∀ d ∈ recs, knowledge.noSlash d.group ∧ knowledge.noSlash d.version ∧ d.group ≠ "core")
    (hq : knowledge.noSlash g ∧ knowledge.noSlash v ∧ g ≠ "core")
    (hnd : (recs.map knowledge.tripleOf).Nodup) :
    (knowledge.IsAPIRemoved recs g v k t = true ↔
      ∃ d ∈ recs, d.group = g ∧ d.version = v ∧ d.kind = k ∧
        knowledge.isVersionGreaterOrEqual t d.removedIn = true) ∧
    (∀ d ∈ recs, d.group = g → d.version = v → d.kind = k →
      knowledge.IsAPIRemoved recs g v k t = knowledge.isVersionGreaterOrEqual t d.removedIn) := by
  have hkeys := knowledge.keys_nodup hrecs hnd
  have hchar := fun d => knowledge.lookupDep_eq_some_iff recs hkeys (knowledge.makeKey g v k) d
  have hmatch : ∀ d ∈ recs, d.group = g → d.version = v → d.kind = k →
      knowledge.lookupDep recs (knowledge.makeKey g v k) = some d := by
    intro d hd hg hv hk
    exact (hchar d).2 ⟨hd, by simp [knowledge.keyOf, hg, hv, hk]⟩
  constructor
  · constructor
    · intro h
      unfold knowledge.IsAPIRemoved knowledge.CheckDeprecation at h
      cases hl : knowledge.lookupDep recs (knowledge.makeKey g v k) with
      | none => rw [hl] at h; cases h
      | some dep =>
        rw [hl] at h
        obtain ⟨hmem, hkey⟩ := (hchar dep).1 hl
        obtain ⟨hg, hv, hk⟩ := knowledge.makeKey_inj (hrecs dep hmem).1 (hrecs dep hmem).2.1
          (hrecs dep hmem).2.2 hq.1 hq.2.1 hq.2.2 hkey
        exact ⟨dep, hmem, hg, hv, hk, h⟩
    · rintro ⟨d, hd, hg, hv, hk, hge⟩
      unfold knowledge.IsAPIRemoved knowledge.CheckDeprecation
      rw [hmatch d hd hg hv hk]
      exact hge
  · intro d hd hg hv hk
    unfold knowledge.IsAPIRemoved knowledge.CheckDeprecation
    rw [hmatch d hd hg hv hk]

/-- C1 witness: the amended theorem applied to a concrete well-formed
knowledge base and query. -/
theorem C1_isAPIRemoved_witness :
    knowledge.IsAPIRemoved c1WitnessKB "networking.k8s.io" "v1beta1" "Ingress" "1.25"
      = knowledge.isVersionGreaterOrEqual "1.25" "1.22" := by
  have h := (C1_isAPIRemoved_amended c1WitnessKB "networking.k8s.io" "v1beta1" "Ingress" "1.25"
    (by decide) (by decide) (by decide)).2
    { group := "networking.k8s.io", version := "v1beta1", kind := "Ingress",
      deprecatedIn := "1.19", removedIn := "1.22",
      replacementAPI := "networking.k8s.io/v1", migrationNotes := "use v1" }
    (by decide) rfl rfl rfl
  exact h

/-- C7 counterexample: the claim describes `parseVersion` as taking the
first two components with missing components defaulting to 0, which would
parse "2" as (2, 0); the code returns (0, 0) whenever fewer than two
components are present, observably making "2" compare below "1.0". -/
theorem C7_parse_counterexample :
    knowledge.parseVersion "2" = (0, 0) ∧
    knowledge.parseVersionClaim "2" = (2, 0) ∧
    knowledge.isVersionGreaterOrEqual "2" "1.0" = false := by
  decide

/-- C7 (amended): parsing strips an optional leading v and splits on ".";
with at least two components the first two are taken as integers with
non-numeric components defaulting to 0 (as the claim states); with fewer
than two components both results are 0 (the claim's per-component default
applied only to the major component would give (major, 0) instead).  The
claimed consequences hold: the empty string parses to (0, 0), and versions
sharing their first two components compare equal in both directions. -/
theorem C7_parseVersion_amended (v1 v2 : String) :
    (2 ≤ (knowledge.goSplitDot (knowledge.normalizeVersion v1)).length →
      knowledge.parseVersion (knowledge.normalizeVersion v1)
        = knowledge.parseVersionClaim (knowledge.normalizeVersion v1)) ∧
    ((knowledge.goSplitDot (knowledge.normalizeVersion v1)).length < 2 →
      knowledge.parseVersion (knowledge.normalizeVersion v1) = (0, 0)) ∧
    knowledge.parseVersion "" = (0, 0) ∧
    ((knowledge.goSplitDot (knowledge.normalizeVersion v1)).take 2
        = (knowledge.goSplitDot (knowledge.normalizeVersion v2)).take 2 →
      knowledge.isVersionGreaterOrEqual v1 v2 = true ∧
      knowledge.isVersionGreaterOrEqual v2 v1 = true) := by
  refine ⟨?_, ?_, by decide, ?_⟩
  · unfold knowledge.parseVersion knowledge.parseVersionClaim
    cases hsp : knowledge.goSplitDot (knowledge.normalizeVersion v1) with
    | nil => intro h; simp at h
    | cons p0 rest =>
      cases rest with
      | nil => intro h; simp at h
      | cons p1 rest2 => intro h; simp [List.getD]
  · unfold knowledge.parseVersion
    cases hsp : knowledge.goSplitDot (knowledge.normalizeVersion v1) with
    | nil => intro h; rfl
    | cons p0 rest =>
      cases rest with
      | nil => intro h; rfl
      | cons p1 rest2 =>
        intro h
        exfalso
        simp only [List.length_cons] at h
        omega
  · intro h
    have hparse : knowledge.parseVersion (knowledge.normalizeVersion v1)
        = knowledge.parseVersion (knowledge.normalizeVersion v2) := by
      unfold knowledge.parseVersion
      revert h
      cases hs1 : knowledge.goSplitDot (knowledge.normalizeVersion v1) with
      | nil =>
        cases hs2 : knowledge.goSplitDot (knowledge.normalizeVersion v2) with
        | nil => intro h; rfl
        | cons q0 qrest =>
          cases qrest with
          | nil => intro h; simp at h
          | cons q1 qrest2 => intro h; simp at h
      | cons p0 prest =>
        cases prest with
        | nil =>
          cases hs2 : knowledge.goSplitDot (knowledge.normalizeVersion v2) with
          | nil => intro h; simp at h
          | cons q0 qrest =>
            cases qrest with
            | nil => intro h; rfl
            | cons q1 qrest2 => intro h; simp at h
        | cons p1 prest2 =>
          cases hs2 : knowledge.goSplitDot (knowledge.normalizeVersion v2) with
          | nil => intro h; simp at h
          | cons q0 qrest =>
            cases qrest with
            | nil => intro h; simp at h
            | cons q1 qrest2 =>
              intro h
              simp at h
              rw [h.1, h.2]
    have hVG : ∀ a b : String, knowledge.isVersionGreaterOrEqual a b =
        (if (knowledge.parseVersion (knowledge.normalizeVersion a)).1
              > (knowledge.parseVersion (knowledge.normalizeVersion b)).1 then true
          else if (knowledge.parseVersion (knowledge.normalizeVersion a)).1
              < (knowledge.parseVersion (knowledge.normalizeVersion b)).1 then false
          else decide ((knowledge.parseVersion (knowledge.normalizeVersion a)).2
              ≥ (knowledge.parseVersion (knowledge.normalizeVersion b)).2)) :=
      fun a b => rfl
    constructor
    · rw [hVG, hparse]
      simp
    · rw [hVG, hparse]
      simp

/-- C7 witness: the amended theorem applied to "1.2.3" and "v1.2.9", which
differ only in the patch component. -/
theorem C7_parseVersion_witness :
    knowledge.isVersionGreaterOrEqual "1.2.3" "v1.2.9" = true ∧
    knowledge.isVersionGreaterOrEqual "v1.2.9" "1.2.3" = true ∧
    knowledge.parseVersion (knowledge.normalizeVersion "1.2.3")
      = knowledge.parseVersionClaim (knowledge.normalizeVersion "1.2.3") := by
  refine ⟨((C7_parseVersion_amended "1.2.3" "v1.2.9").2.2.2 (by decide)).1,
    ((C7_parseVersion_amended "1.2.3" "v1.2.9").2.2.2 (by decide)).2,
    (C7_parseVersion_amended "1.2.3" "v1.2.9").1 (by decide)⟩

/-- C9: the timeline string is determined by the truncating integer
division hours = stepCount * 30 / 60 (i.e. stepCount / 2): the code
reports "Less than 1 hour" when it is 0 (stepCount at most 1), the
singular "Approximately 1 hour" when it is exactly 1 (stepCount 2 or 3),
and "Approximately N hours" with N the quotient otherwise. -/
theorem C9_estimateTimeline (stepCount : Nat) :
    (planner.estimateTimeline stepCount =
      if stepCount * 30 / 60 = 0 then "Less than 1 hour"
      else if stepCount * 30 / 60 = 1 then "Approximately 1 hour"
      else "Approximately " ++ toString (stepCount * 30 / 60) ++ " hours") ∧
    (planner.estimateTimeline stepCount =
      if stepCount ≤ 1 then "Less than 1 hour"
      else if stepCount ≤ 3 then "Approximately 1 hour"
      else "Approximately " ++ toString (stepCount / 2) ++ " hours") := by
  have hdiv : stepCount * 30 / 60 = stepCount / 2 := by omega
  have he : planner.estimateTimeline stepCount =
      if stepCount * 30 / 60 < 1 then "Less than 1 hour"
      else if stepCount * 30 / 60 = 1 then "Approximately 1 hour"
      else "Approximately " ++ toString (stepCount * 30 / 60) ++ " hours" := rfl
  constructor
  · rw [he]
    by_cases h0 : stepCount * 30 / 60 = 0
    · rw [if_pos (by omega), if_pos h0]
    · rw [if_neg (by omega), if_neg h0]
  · rw [he]
    by_cases h1 : stepCount ≤ 1
    · rw [if_pos (by omega), if_pos h1]
    · by_cases h3 : stepCount ≤ 3
      · rw [if_neg (by omega), if_pos (by omega), if_neg h1, if_pos h3]
      · rw [if_neg (by omega), if_neg (by omega), if_neg h1, if_neg h3, hdiv]

namespace analysis

theorem manifestImpactOf_critical (apiKB : List knowledge.APIDeprecation) (tv : String)
    (api : ManifestAPIRec) (x : DeprecatedAPIImpact)
    (h : manifestImpactOf apiKB tv api = some x) : x.impactLevel = ImpactCritical := by
  unfold manifestImpactOf at h
  split at h
  · split at h
    · cases h; rfl
    · cases h
  · cases h

theorem calculateOverallRisk_eq_claim (a : ImpactAssessment)
    (hcrit : ∀ x ∈ a.deprecatedManifestAPIs, x.impactLevel = ImpactCritical) :
    calculateOverallRisk a = riskCascadeClaim a := by
  unfold calculateOverallRisk riskCascadeClaim
  have hc : a.deprecatedManifestAPIs.countP (fun api => api.impactLevel == ImpactCritical)
      = a.deprecatedManifestAPIs.length :=
    List.countP_eq_length.2 (fun x hx => by simp [hcrit x hx])
  simp only [hc]
  by_cases h0 : a.totalIssues = 0 <;>
    by_cases hm : a.deprecatedManifestAPIs.length > 0 <;>
    by_cases hcrd : a.deprecatedCRDAPIs.length > 0 <;>
    by_cases hch : a.incompatibleCharts.length > 0 <;>
    simp [h0, hm, hcrd, hch]

theorem assessBase_manifest_critical (apiKB : List knowledge.APIDeprecation)
    (chartKB : List knowledge.ChartInfo) (clusterID : String) (cluster : ClusterRec)
    (tv : String) :
    ∀ x ∈ (assessBase apiKB chartKB clusterID cluster tv).deprecatedManifestAPIs,
      x.impactLevel = ImpactCritical := by
  intro x hx
  obtain ⟨api, _, hsome⟩ := List.mem_filterMap.1 hx
  exact manifestImpactOf_critical apiKB tv api x hsome

theorem computeUpgradeImpact_risk_eq_claim (apiKB : List knowledge.APIDeprecation)
    (chartKB : List knowledge.ChartInfo) (clusterID : String) (cluster : ClusterRec)
    (targetVersion : String) :
    (ComputeUpgradeImpact apiKB chartKB clusterID cluster targetVersion).overallRisk
      = riskCascadeClaim (ComputeUpgradeImpact apiKB chartKB clusterID cluster targetVersion) := by
  have h1 : (ComputeUpgradeImpact apiKB chartKB clusterID cluster targetVersion).overallRisk
      = calculateOverallRisk (assessBase apiKB chartKB clusterID cluster targetVersion) := rfl
  have h2 : riskCascadeClaim (ComputeUpgradeImpact apiKB chartKB clusterID cluster targetVersion)
      = riskCascadeClaim (assessBase apiKB chartKB clusterID cluster targetVersion) := rfl
  rw [h1, h2]
  exact calculateOverallRisk_eq_claim _
    (assessBase_manifest_critical apiKB chartKB clusterID cluster targetVersion)

end analysis

/-- C4: for every assessment returned by `ComputeUpgradeImpact`,
`OverallRisk` follows the claimed fixed priority cascade — None on zero
issues, otherwise Critical as soon as any manifest-origin impact exists
(every manifest-origin entry carries ImpactCritical, so the code's
critical count is exactly the manifest list length), otherwise High on any
CRD-origin or chart impact, otherwise Medium. -/
theorem C4_overallRisk_cascade (apiKB : List knowledge.APIDeprecation)
    (chartKB : List knowledge.ChartInfo) (clusterID : String) (cluster : analysis.ClusterRec)
    (targetVersion : String) :
    (analysis.ComputeUpgradeImpact apiKB chartKB clusterID cluster targetVersion).overallRisk
      = analysis.riskCascadeClaim
          (analysis.ComputeUpgradeImpact apiKB chartKB clusterID cluster targetVersion) :=
  analysis.computeUpgradeImpact_risk_eq_claim apiKB chartKB clusterID cluster targetVersion

/-- C10: for every assessment returned by `ComputeUpgradeImpact`,
`TotalIssues` is the sum of the three finding-list lengths, and
`OverallRisk` is never Medium: it is always one of none, critical, high
(the Medium branch of `calculateOverallRisk` is unreachable from the
analyzer). -/
theorem C10_totalIssues_and_no_medium (apiKB : List knowledge.APIDeprecation)
    (chartKB : List knowledge.ChartInfo) (clusterID : String) (cluster : analysis.ClusterRec)
    (targetVersion : String) :
    (analysis.ComputeUpgradeImpact apiKB chartKB clusterID cluster targetVersion).totalIssues
      = (analysis.ComputeUpgradeImpact apiKB chartKB clusterID cluster
          targetVersion).deprecatedManifestAPIs.length
        + (analysis.ComputeUpgradeImpact apiKB chartKB clusterID cluster
            targetVersion).deprecatedCRDAPIs.length
        + (analysis.ComputeUpgradeImpact apiKB chartKB clusterID cluster
            targetVersion).incompatibleCharts.length ∧
    ((analysis.ComputeUpgradeImpact apiKB chartKB clusterID cluster targetVersion).overallRisk
        = analysis.ImpactNone ∨
      (analysis.ComputeUpgradeImpact apiKB chartKB clusterID cluster targetVersion).overallRisk
        = analysis.ImpactCritical ∨
      (analysis.ComputeUpgradeImpact apiKB chartKB clusterID cluster targetVersion).overallRisk
        = analysis.ImpactHigh) := by
  refine ⟨rfl, ?_⟩
  have h1 : (analysis.ComputeUpgradeImpact apiKB chartKB clusterID cluster targetVersion).overallRisk
      = analysis.riskCascadeClaim
          (analysis.ComputeUpgradeImpact apiKB chartKB clusterID cluster targetVersion) :=
    analysis.computeUpgradeImpact_risk_eq_claim apiKB chartKB clusterID cluster targetVersion
  rw [h1]
  set a := analysis.ComputeUpgradeImpact apiKB chartKB clusterID cluster targetVersion with ha
  have htot : a.totalIssues = a.deprecatedManifestAPIs.length + a.deprecatedCRDAPIs.length
      + a.incompatibleCharts.length := rfl
  unfold analysis.riskCascadeClaim
  by_cases h0 : a.totalIssues = 0
  · rw [if_pos h0]; left; rfl
  · rw [if_neg h0]
    by_cases hm : a.deprecatedManifestAPIs.length > 0
    · rw [if_pos hm]; right; left; rfl
    · rw [if_neg hm]
      by_cases hcc : a.deprecatedCRDAPIs.length > 0 ∨ a.incompatibleCharts.length > 0
      · rw [if_pos hcc]; right; right; rfl
      · exfalso
        push_neg at hcc
        omega

namespace knowledge

theorem bestVersionFold_some (nt : String) :
    ∀ (l : List ChartCompatibility) (acc : Option ChartCompatibility) (b : ChartCompatibility),
      l.foldl (bestVersionFold nt) acc = some b →
      acc = some b ∨ (b ∈ l ∧
        b.compatibleWith.any (fun cv => normalizeVersion cv == nt) = true ∧
        b.knownIssues = []) := by
  intro l
  induction l with
  | nil => intro acc b h; left; exact h
  | cons c rest ih =>
    intro acc b h
    rw [List.foldl_cons] at h
    rcases ih (bestVersionFold nt acc c) b h with hacc | hmem
    · unfold bestVersionFold at hacc
      split at hacc
      · left; exact hacc
      · rename_i hnc
        split at hacc
        · left; exact hacc
        · rename_i hni
          have hcomp : c.compatibleWith.any (fun cv => normalizeVersion cv == nt) = true := by
            simpa using hnc
          have hissues : c.knownIssues = [] := by
            simp only [gt_iff_lt, not_lt, Nat.le_zero, List.length_eq_zero] at hni
            exact hni
          split at hacc
          · cases hacc
            exact Or.inr ⟨List.mem_cons_self _ _, hcomp, hissues⟩
          · split at hacc
            · cases hacc
              exact Or.inr ⟨List.mem_cons_self _ _, hcomp, hissues⟩
            · left; exact hacc
    · exact Or.inr ⟨List.mem_cons_of_mem _ hmem.1, hmem.2.1, hmem.2.2⟩

theorem currentStateOf_issue_free (chart : ChartInfo) (cv nt : String)
    (h : ((currentStateOf chart cv nt).1 && (currentStateOf chart cv nt).2.isEmpty) = true) :
    ∃ e ∈ chart.versions,
      e.compatibleWith.any (fun x => normalizeVersion x == nt) = true ∧ e.knownIssues = [] := by
  unfold currentStateOf at h
  split at h
  · rename_i compat hf
    split at h
    · rename_i hany
      simp only [Bool.and_eq_true, List.isEmpty_iff] at h
      exact ⟨compat, List.mem_of_find?_eq_some hf, hany, h.2⟩
    · simp at h
  · simp at h

theorem findCompatible_lookup_none (charts : List ChartInfo) (n cv t : String)
    (hc : lookupChart charts n = none) :
    FindCompatibleChartVersion charts n cv t
      = { chartName := n, currentVersion := cv, recommendedVersion := "", isCompatible := true,
          message := "Chart not in knowledge base - compatibility unknown", knownIssues := [] } := by
  unfold FindCompatibleChartVersion
  rw [hc]

theorem findCompatible_lookup_some (charts : List ChartInfo) (n cv t : String)
    (chart : ChartInfo) (hc : lookupChart charts n = some chart) :
    FindCompatibleChartVersion charts n cv t = findCompatibleOfChart chart n cv t := by
  unfold FindCompatibleChartVersion
  rw [hc]

end knowledge

/-- C5: `FindCompatibleChartVersion` never recommends a version with
documented known issues — a non-empty `RecommendedVersion` always names an
entry of the chart whose `knownIssues` list is empty; and when the chart
is known but no issue-free entry compatible with the target exists, the
result reports `IsCompatible = false` with no recommendation. -/
theorem C5_recommend_issue_free (charts : List knowledge.ChartInfo)
    (chartName currentVersion target : String) :
    ((knowledge.FindCompatibleChartVersion charts chartName currentVersion
        target).recommendedVersion ≠ "" →
      ∃ chart, knowledge.lookupChart charts chartName = some chart ∧
        ∃ e ∈ chart.versions,
          e.chartVersion = (knowledge.FindCompatibleChartVersion charts chartName currentVersion
            target).recommendedVersion ∧
          e.knownIssues = []) ∧
    (∀ chart, knowledge.lookupChart charts chartName = some chart →
      (∀ e ∈ chart.versions,
        ¬ (knowledge.entryCompatibleWith e target = true ∧ e.knownIssues = [])) →
      (knowledge.FindCompatibleChartVersion charts chartName currentVersion
          target).isCompatible = false ∧
      (knowledge.FindCompatibleChartVersion charts chartName currentVersion
          target).recommendedVersion = "") := by
  cases hc : knowledge.lookupChart charts chartName with
  | none =>
    rw [knowledge.findCompatible_lookup_none charts chartName currentVersion target hc]
    constructor
    · intro h; exact absurd rfl h
    · intro chart hchart
      cases hchart
  | some chart =>
    rw [knowledge.findCompatible_lookup_some charts chartName currentVersion target chart hc]
    unfold knowledge.findCompatibleOfChart
    by_cases hstay : ((knowledge.currentStateOf chart currentVersion
          (knowledge.normalizeVersion target)).1
        && (knowledge.currentStateOf chart currentVersion
          (knowledge.normalizeVersion target)).2.isEmpty) = true
    · rw [if_pos hstay]
      constructor
      · intro h; exact absurd rfl h
      · intro chart2 hchart2 hnone
        cases hchart2
        exfalso
        obtain ⟨e, he, hecomp, heiss⟩ := knowledge.currentStateOf_issue_free chart currentVersion
          (knowledge.normalizeVersion target) hstay
        exact hnone e he ⟨hecomp, heiss⟩
    · rw [if_neg hstay]
      cases hfold : chart.versions.foldl
          (knowledge.bestVersionFold (knowledge.normalizeVersion target)) none with
      | some b =>
        have hb := knowledge.bestVersionFold_some (knowledge.normalizeVersion target)
          chart.versions none b hfold
        rcases hb with hcontra | ⟨hbmem, hbcomp, hbiss⟩
        · cases hcontra
        constructor
        · intro _
          exact ⟨chart, rfl, b, hbmem, rfl, hbiss⟩
        · intro chart2 hchart2 hnone
          cases hchart2
          exact absurd ⟨hbcomp, hbiss⟩ (hnone b hbmem)
      | none =>
        constructor
        · intro h; exact absurd rfl h
        · intro chart2 hchart2 hnone
          exact ⟨rfl, rfl⟩

/-- C5 witness: on a concrete knowledge base, the chart `prometheus` at
20.0.0 with target 1.25 is recommended the issue-free 25.0.0 (not the
issue-laden 24.0.0), and the chart `broken`, which has no issue-free entry
compatible with 1.25, reports incompatibility with no recommendation. -/
theorem C5_recommend_issue_free_witness :
    (∃ chart, knowledge.lookupChart c5KB "prometheus" = some chart ∧
      ∃ e ∈ chart.versions,
        e.chartVersion = (knowledge.FindCompatibleChartVersion c5KB "prometheus" "20.0.0"
          "1.25").recommendedVersion ∧
        e.knownIssues = []) ∧
    (knowledge.FindCompatibleChartVersion c5KB "broken" "1.0.0" "1.25").isCompatible = false ∧
    (knowledge.FindCompatibleChartVersion c5KB "broken" "1.0.0" "1.25").recommendedVersion = "" := by
  refine ⟨(C5_recommend_issue_free c5KB "prometheus" "20.0.0" "1.25").1 (by decide), ?_⟩
  have h2 := (C5_recommend_issue_free c5KB "broken" "1.0.0" "1.25").2
  have hchart : knowledge.lookupChart c5KB "broken" = some c5Broken := by decide
  exact h2 c5Broken hchart (by decide)

/-- C6: absence from a knowledge base is treated as compatible /
not-deprecated.  `CheckCompatibility` answers (true, []) for an unknown
chart and for an unknown chart-version entry; `FindCompatibleChartVersion`
answers compatible for an unknown chart; and the analyzer emits no
incompatible-chart entry for a chart name absent from the chart knowledge
base and no deprecated-API entry (manifest or CRD) for a triple absent
from the API knowledge base. -/
theorem C6_absence_assumed_compatible
    (charts : List knowledge.ChartInfo) (name chartVersion kubeVersion : String)
    (apiKB : List knowledge.APIDeprecation) (chartKB : List knowledge.ChartInfo)
    (clusterID : String) (cluster : analysis.ClusterRec) (targetVersion : String)
    (g v k : String) :
    (knowledge.lookupChart charts name = none →
      knowledge.CheckCompatibility charts name chartVersion kubeVersion = (true, [])) ∧
    (∀ chart, knowledge.lookupChart charts name = some chart →
      chart.versions.find? (fun compat => compat.chartVersion == chartVersion) = none →
      knowledge.CheckCompatibility charts name chartVersion kubeVersion = (true, [])) ∧
    (knowledge.lookupChart charts name = none →
      (knowledge.FindCompatibleChartVersion charts name chartVersion
        kubeVersion).isCompatible = true) ∧
    (knowledge.lookupChart chartKB name = none →
      ∀ e ∈ (analysis.ComputeUpgradeImpact apiKB chartKB clusterID cluster
          targetVersion).incompatibleCharts,
        e.chartName ≠ name) ∧
    (knowledge.CheckDeprecation apiKB g v k = none →
      (∀ e ∈ (analysis.ComputeUpgradeImpact apiKB chartKB clusterID cluster
          targetVersion).deprecatedManifestAPIs,
        ¬ (e.group = g ∧ e.version = v ∧ e.kind = k)) ∧
      (∀ e ∈ (analysis.ComputeUpgradeImpact apiKB chartKB clusterID cluster
          targetVersion).deprecatedCRDAPIs,
        ¬ (e.group = g ∧ e.version = v ∧ e.kind = k))) := by
  refine ⟨?_, ?_, ?_, ?_, ?_⟩
  · intro h
    unfold knowledge.CheckCompatibility
    rw [h]
  · intro chart hc hfind
    unfold knowledge.CheckCompatibility
    rw [hc]
    show knowledge.checkCompatOfChart chart chartVersion kubeVersion = (true, [])
    unfold knowledge.checkCompatOfChart
    rw [hfind]
  · intro h
    rw [knowledge.findCompatible_lookup_none charts name chartVersion kubeVersion h]
  · intro hnone e he
    obtain ⟨release, _, hsome⟩ := List.mem_filterMap.1 he
    intro heq
    unfold analysis.chartImpactOf at hsome
    split at hsome
    · rename_i hcompat
      cases hsome
      have heq2 : release.chart = name := heq
      rw [heq2] at hcompat
      rw [knowledge.findCompatible_lookup_none chartKB name release.chartVersion
        targetVersion hnone] at hcompat
      simp at hcompat
    · cases hsome
  · intro hdep
    constructor
    · intro e he
      obtain ⟨api, _, hsome⟩ := List.mem_filterMap.1 he
      unfold analysis.manifestImpactOf at hsome
      split at hsome
      · rename_i hrem
        split at hsome
        · cases hsome
          rintro ⟨hg, hv, hk⟩
          have hg2 : api.group = g := hg
          have hv2 : api.version = v := hv
          have hk2 : api.kind = k := hk
          rw [hg2, hv2, hk2] at hrem
          unfold knowledge.IsAPIRemoved at hrem
          rw [hdep] at hrem
          simp at hrem
        · cases hsome
      · cases hsome
    · intro e he
      obtain ⟨crd, _, hmem2⟩ := List.mem_flatMap.1 he
      obtain ⟨version, _, hsome⟩ := List.mem_filterMap.1 hmem2
      unfold analysis.crdImpactOf at hsome
      split at hsome
      · rename_i hrem
        split at hsome
        · cases hsome
          rintro ⟨hg, hv, hk⟩
          have hg2 : crd.group = g := hg
          have hv2 : version = v := hv
          have hk2 : crd.kind = k := hk
          rw [hg2, hv2, hk2] at hrem
          unfold knowledge.IsAPIRemoved at hrem
          rw [hdep] at hrem
          simp at hrem
        · cases hsome
      · cases hsome

/-- C6 witness: the absence theorem applied to a concrete cluster whose
release, manifest API, and CRD versions are all absent from their
knowledge bases. -/
theorem C6_absence_assumed_compatible_witness :
    knowledge.CheckCompatibility c5KB "unknown-chart" "1.0.0" "1.24" = (true, []) ∧
    knowledge.CheckCompatibility c5KB "prometheus" "9.9.9" "1.24" = (true, []) ∧
    (knowledge.FindCompatibleChartVersion c5KB "unknown-chart" "1.0.0"
      "1.24").isCompatible = true ∧
    (∀ e ∈ (analysis.ComputeUpgradeImpact c1WitnessKB c5KB "c" c6Cluster
        "1.25").incompatibleCharts,
      e.chartName ≠ "unknown-chart") ∧
    (∀ e ∈ (analysis.ComputeUpgradeImpact c1WitnessKB c5KB "c" c6Cluster
        "1.25").deprecatedManifestAPIs,
      ¬ (e.group = "acme.io" ∧ e.version = "v1" ∧ e.kind = "Widget")) := by
  have h := C6_absence_assumed_compatible c5KB "unknown-chart" "1.0.0" "1.24"
    c1WitnessKB c5KB "c" c6Cluster "1.25" "acme.io" "v1" "Widget"
  have h2 := C6_absence_assumed_compatible c5KB "prometheus" "9.9.9" "1.24"
    c1WitnessKB c5KB "c" c6Cluster "1.25" "acme.io" "v1" "Widget"
  refine ⟨h.1 (by decide), h2.2.1 c5Prom (by decide) (by decide), h.2.2.1 (by decide),
    h.2.2.2.1 (by decide), (h.2.2.2.2 (by decide)).1⟩

namespace planner

theorem sortStrings_sorted (l : List String) : List.Sorted stringLe (sortStrings l) :=
  List.sorted_insertionSort stringLe l

theorem sortStrings_perm (l : List String) : (sortStrings l).Perm l :=
  List.perm_insertionSort stringLe l

theorem sortStrings_eq_of_perm {l₁ l₂ : List String} (h : l₁.Perm l₂) :
    sortStrings l₁ = sortStrings l₂ :=
  List.eq_of_perm_of_sorted
    (((sortStrings_perm l₁).trans h).trans (sortStrings_perm l₂).symm)
    (sortStrings_sorted l₁) (sortStrings_sorted l₂)

theorem foldl_decStep_fst (l : List String) :
    ∀ (st : (String → Int) × List String) (n : String),
      (l.foldl decStep st).1 n = st.1 n - (l.count n : Int) := by
  induction l with
  | nil => intro st n; simp
  | cons a t ih =>
    intro st n
    rw [List.foldl_cons, ih]
    by_cases hn : n = a
    · subst hn
      rw [show (decStep st n).1 n = st.1 n - 1 from by simp [decStep]]
      have hc : (n :: t).count n = t.count n + 1 := by simp [List.count_cons]
      rw [hc]
      push_cast
      ring
    · rw [show (decStep st a).1 n = st.1 n from by simp [decStep, hn]]
      have hc : (a :: t).count n = t.count n := by
        simp [List.count_cons, Ne.symm hn]
      rw [hc]

theorem foldl_decStep_snd (l : List String) :
    ∀ (st : (String → Int) × List String),
      ∃ zs : List String,
        (l.foldl decStep st).2 = st.2 ++ zs ∧ zs.Nodup ∧
        ∀ z, z ∈ zs ↔ (z ∈ l ∧ 1 ≤ st.1 z ∧ st.1 z ≤ (l.count z : Int)) := by
  induction l with
  | nil =>
    intro st
    exact ⟨[], by simp, List.nodup_nil, by simp⟩
  | cons a t ih =>
    intro st
    rw [List.foldl_cons]
    obtain ⟨zs, hq, hnd, hmem⟩ := ih (decStep st a)
    have hfst : ∀ z, (decStep st a).1 z = if z = a then st.1 a - 1 else st.1 z := by
      intro z; rfl
    have hsnd : (decStep st a).2 = st.2 ++ (if st.1 a - 1 = 0 then [a] else []) := by
      show (if st.1 a - 1 = 0 then st.2 ++ [a] else st.2) = _
      split <;> simp
    refine ⟨(if st.1 a - 1 = 0 then [a] else []) ++ zs, ?_, ?_, ?_⟩
    · rw [hq, hsnd, List.append_assoc]
    · rw [List.nodup_append]
      refine ⟨by split <;> simp, hnd, ?_⟩
      intro x hx
      by_cases hc : st.1 a - 1 = 0
      · rw [if_pos hc] at hx
        have hxa : x = a := by simpa using hx
        subst hxa
        intro hxz
        have h2 := (hmem x).1 hxz
        rw [hfst, if_pos rfl] at h2
        omega
      · rw [if_neg hc] at hx
        simp at hx
    · intro z
      simp only [List.mem_append]
      by_cases hz : z = a
      · subst hz
        have hcnt : ((z :: t).count z : Int) = (t.count z : Int) + 1 := by
          have : (z :: t).count z = t.count z + 1 := by simp [List.count_cons]
          rw [this]
          push_cast
          ring
        have hnn : (0 : Int) ≤ (t.count z : Int) := Int.natCast_nonneg _
        constructor
        · rintro (h1 | h2)
          · by_cases hc : st.1 z - 1 = 0
            · exact ⟨List.mem_cons_self _ _, by omega, by omega⟩
            · rw [if_neg hc] at h1
              simp at h1
          · have h3 := (hmem z).1 h2
            rw [hfst, if_pos rfl] at h3
            obtain ⟨hzt, hlo, hhi⟩ := h3
            exact ⟨List.mem_cons_self _ _, by omega, by omega⟩
        · rintro ⟨_, hlo, hhi⟩
          by_cases h1 : st.1 z = 1
          · left
            rw [if_pos (by omega)]
            exact List.mem_singleton.2 rfl
          · right
            apply (hmem z).2
            rw [hfst, if_pos rfl]
            have hzc : (1 : Int) ≤ (t.count z : Int) := by omega
            have hzt : z ∈ t := by
              have h4 : 1 ≤ t.count z := by exact_mod_cast hzc
              exact List.count_pos_iff.1 (by omega)
            exact ⟨hzt, by omega, by omega⟩
      · have hcc : ((a :: t).count z : Int) = (t.count z : Int) := by
          have : (a :: t).count z = t.count z := by
            simp [List.count_cons, Ne.symm hz]
          rw [this]
        constructor
        · rintro (h1 | h2)
          · exfalso
            by_cases hc : st.1 a - 1 = 0
            · rw [if_pos hc] at h1
              exact hz (by simpa using h1)
            · rw [if_neg hc] at h1
              simp at h1
          · have h3 := (hmem z).1 h2
            rw [hfst, if_neg hz] at h3
            exact ⟨List.mem_cons_of_mem _ h3.1, h3.2.1, by rw [hcc]; exact h3.2.2⟩
        · rintro ⟨hmem2, hlo, hhi⟩
          right
          apply (hmem z).2
          rw [hfst, if_neg hz]
          have hzt : z ∈ t := by
            rcases List.mem_cons.1 hmem2 with h | h
            · exact absurd h hz
            · exact h
          rw [hcc] at hhi
          exact ⟨hzt, hlo, hhi⟩

end planner

theorem perm_of_nodup_of_mem_iff {α : Type} [DecidableEq α] {l₁ l₂ : List α}
    (h₁ : l₁.Nodup) (h₂ : l₂.Nodup) (h : ∀ a, a ∈ l₁ ↔ a ∈ l₂) : l₁.Perm l₂ :=
  List.perm_of_nodup_nodup_toFinset_eq h₁ h₂ (by ext a; simp [h a])

namespace planner

theorem kahnLoop_nil (g : List UpgradeStep) (e : List (String × String)) (f : Nat)
    (d : String → Int) (q : List String) (r : List UpgradeStep)
    (hs : sortStrings q = []) : kahnLoop g e (f + 1) d q r = r := by
  simp only [kahnLoop]
  rw [hs]

theorem kahnLoop_cons (g : List UpgradeStep) (e : List (String × String)) (f : Nat)
    (d : String → Int) (q : List String) (r : List UpgradeStep)
    (current : String) (rest : List String) (hs : sortStrings q = current :: rest) :
    kahnLoop g e (f + 1) d q r =
      kahnLoop g e f ((neighborsOf e current).foldl decStep (d, rest)).1
        ((neighborsOf e current).foldl decStep (d, rest)).2
        (r ++ [match lookupG g current with
               | some s => { s with order := r.length }
               | none => default]) := by
  simp only [kahnLoop]
  rw [hs]
  rfl

theorem neighborsOf_perm {e₁ e₂ : List (String × String)} (he : e₁.Perm e₂) (c : String) :
    (neighborsOf e₁ c).Perm (neighborsOf e₂ c) :=
  (he.filter _).map _

theorem kahnLoop_view (g₁ g₂ : List UpgradeStep) (e₁ e₂ : List (String × String))
    (hg : ∀ i, Option.map stepView (lookupG g₁ i) = Option.map stepView (lookupG g₂ i))
    (he : e₁.Perm e₂) :
    ∀ (fuel : Nat) (d : String → Int) (q₁ q₂ : List String) (r₁ r₂ : List UpgradeStep),
      q₁.Perm q₂ → r₁.map stepView = r₂.map stepView →
      (kahnLoop g₁ e₁ fuel d q₁ r₁).map stepView
        = (kahnLoop g₂ e₂ fuel d q₂ r₂).map stepView := by
  intro fuel
  induction fuel with
  | zero =>
    intro d q₁ q₂ r₁ r₂ hq hr
    simpa [kahnLoop] using hr
  | succ f ih =>
    intro d q₁ q₂ r₁ r₂ hq hr
    have hsort : sortStrings q₁ = sortStrings q₂ := sortStrings_eq_of_perm hq
    cases hs : sortStrings q₂ with
    | nil =>
      rw [kahnLoop_nil g₁ e₁ f d q₁ r₁ (hsort.trans hs), kahnLoop_nil g₂ e₂ f d q₂ r₂ hs]
      exact hr
    | cons current rest =>
      rw [kahnLoop_cons g₁ e₁ f d q₁ r₁ current rest (hsort.trans hs),
        kahnLoop_cons g₂ e₂ f d q₂ r₂ current rest hs]
      obtain ⟨zs₁, hzq₁, hznd₁, hzmem₁⟩ := foldl_decStep_snd (neighborsOf e₁ current) (d, rest)
      obtain ⟨zs₂, hzq₂, hznd₂, hzmem₂⟩ := foldl_decStep_snd (neighborsOf e₂ current) (d, rest)
      have hnb : (neighborsOf e₁ current).Perm (neighborsOf e₂ current) := neighborsOf_perm he current
      have hd : ((neighborsOf e₁ current).foldl decStep (d, rest)).1
          = ((neighborsOf e₂ current).foldl decStep (d, rest)).1 := by
        funext n
        rw [foldl_decStep_fst, foldl_decStep_fst, hnb.count_eq]
      have hzperm : zs₁.Perm zs₂ := by
        refine perm_of_nodup_of_mem_iff hznd₁ hznd₂ ?_
        intro z
        rw [hzmem₁ z, hzmem₂ z, hnb.mem_iff, hnb.count_eq]
      have hstep : stepView (match lookupG g₁ current with
            | some s => { s with order := r₁.length }
            | none => default)
          = stepView (match lookupG g₂ current with
            | some s => { s with order := r₂.length }
            | none => default) := by
        have h := hg current
        cases h₁ : lookupG g₁ current with
        | none =>
          cases h₂ : lookupG g₂ current with
          | none => rfl
          | some s₂ => rw [h₁, h₂] at h; simp at h
        | some s₁ =>
          cases h₂ : lookupG g₂ current with
          | none => rw [h₁, h₂] at h; simp at h
          | some s₂ =>
            rw [h₁, h₂] at h
            simp only [Option.map_some', Option.some.injEq] at h
            exact h
      rw [hd]
      apply ih
      · rw [hzq₁, hzq₂]
        exact List.Perm.append_left rest hzperm
      · rw [List.map_append, List.map_append, hr]
        simp only [List.map_cons, List.map_nil]
        rw [hstep]

end planner

theorem countP_and_or_split {α : Type} (A B C : α → Bool) (l : List α)
    (h : ∀ x ∈ l, ¬(B x = true ∧ C x = true)) :
    l.countP (fun x => A x && (B x || C x))
      = l.countP (fun x => A x && B x) + l.countP (fun x => A x && C x) := by
  induction l with
  | nil => simp
  | cons a t ih =>
    have ht := ih (fun x hx => h x (List.mem_cons_of_mem _ hx))
    have ha := h a (List.mem_cons_self _ _)
    rw [List.countP_cons, List.countP_cons, List.countP_cons, ht]
    by_cases hA : A a = true <;> by_cases hB : B a = true <;> by_cases hC : C a = true <;>
      simp [hA, hB, hC] at ha ⊢ <;> omega

theorem countP_and_le {α : Type} (A B : α → Bool) (l : List α) :
    l.countP (fun x => A x && B x) ≤ l.countP A := by
  induction l with
  | nil => simp
  | cons a t ih =>
    rw [List.countP_cons, List.countP_cons]
    by_cases hA : A a = true <;> by_cases hB : B a = true <;> simp [hA, hB] <;> omega

theorem exists_of_countP_and_lt {α : Type} (A B : α → Bool) (l : List α)
    (h : l.countP (fun x => A x && B x) < l.countP A) :
    ∃ x ∈ l, A x = true ∧ B x = false := by
  by_contra hc
  push_neg at hc
  have heq : l.countP (fun x => A x && B x) = l.countP A := by
    apply List.countP_congr
    intro x hx
    by_cases hA : A x = true
    · have hB : B x = true := by
        cases hbx : B x
        · exact absurd hbx (hc x hx hA)
        · rfl
      simp [hA, hB]
    · simp [Bool.eq_false_iff.2 hA]
  omega

theorem exists_min_rank {α : Type} (f : α → Nat) :
    ∀ l : List α, l ≠ [] → ∃ n ∈ l, ∀ m ∈ l, f n ≤ f m := by
  intro l
  induction l with
  | nil => intro h; exact absurd rfl h
  | cons a t ih =>
    intro _
    cases t with
    | nil => exact ⟨a, List.mem_singleton.2 rfl, by intro m hm; rw [List.mem_singleton.1 hm]⟩
    | cons b u =>
      obtain ⟨n, hn, hmin⟩ := ih (by simp)
      by_cases hle : f a ≤ f n
      · refine ⟨a, List.mem_cons_self _ _, ?_⟩
        intro m hm
        rcases List.mem_cons.1 hm with rfl | hm
        · exact le_refl _
        · exact le_trans hle (hmin m hm)
      · refine ⟨n, List.mem_cons_of_mem _ hn, ?_⟩
        intro m hm
        rcases List.mem_cons.1 hm with rfl | hm
        · omega
        · exact hmin m hm

namespace planner

theorem lookupG_mem_ids {g : List UpgradeStep} {n : String} (hn : n ∈ idsOf g) :
    ∃ s, lookupG g n = some s ∧ s.id = n := by
  cases hf : lookupG g n with
  | some s =>
    refine ⟨s, rfl, ?_⟩
    have := List.find?_some hf
    simpa using this
  | none =>
    exfalso
    rw [lookupG, List.find?_eq_none] at hf
    obtain ⟨s, hsg, hsid⟩ := List.mem_map.1 hn
    exact (by simpa using hf s hsg : ¬s.id = n) hsid

theorem nb_count_eq (e : List (String × String)) (current z : String) :
    (neighborsOf e current).count z = e.countP (fun p => p.2 == z && p.1 == current) := by
  unfold neighborsOf
  rw [List.count_eq_countP, List.countP_map, List.countP_filter]
  rfl

theorem nb_mem_ids {e : List (String × String)} {g : List UpgradeStep}
    (hedge : ∀ p ∈ e, p.1 ∈ idsOf g ∧ p.2 ∈ idsOf g ∧ kahnRank p.1 < kahnRank p.2)
    {current z : String} (hz : z ∈ neighborsOf e current) : z ∈ idsOf g := by
  unfold neighborsOf at hz
  obtain ⟨p, hp, hpz⟩ := List.mem_map.1 hz
  have := (hedge p (List.mem_filter.1 hp).1).2.1
  rw [hpz] at this
  exact this

theorem cntEm_append_one (e : List (String × String)) (E : List String) (c n : String)
    (hc : c ∉ E) :
    cntEm e (E ++ [c]) n
      = cntEm e E n + e.countP (fun p => p.2 == n && p.1 == c) := by
  unfold cntEm
  rw [← List.countP_eq_length_filter, ← List.countP_eq_length_filter]
  have hsplit := countP_and_or_split (fun p : String × String => p.2 == n)
    (fun p => decide (p.1 ∈ E)) (fun p => p.1 == c) e
    (by
      intro p _
      rintro ⟨h1, h2⟩
      have h1m : p.1 ∈ E := of_decide_eq_true h1
      have h2e : p.1 = c := by simpa using h2
      rw [h2e] at h1m
      exact hc h1m)
  rw [← hsplit]
  apply List.countP_congr
  intro p _
  have : (p.1 ∈ E ++ [c]) ↔ (p.1 ∈ E ∨ p.1 = c) := by simp
  by_cases hm : p.1 ∈ E ++ [c]
  · rcases this.1 hm with h | h
    · simp [hm, h]
    · simp [hm, h]
  · have h1 : p.1 ∉ E := fun hx => hm (List.mem_append_left _ hx)
    have h2 : ¬ p.1 = c := fun hx => hm (this.2 (Or.inr hx))
    simp [hm, h1, h2]

end planner

namespace planner

theorem kahnLoop_complete (g : List UpgradeStep) (e : List (String × String))
    (hids : (idsOf g).Nodup)
    (hedge : ∀ p ∈ e, p.1 ∈ idsOf g ∧ p.2 ∈ idsOf g ∧ kahnRank p.1 < kahnRank p.2) :
    ∀ (fuel : Nat) (d : String → Int) (q : List String) (r : List UpgradeStep),
      kahnInv g e d q r →
      (idsOf g).length - (idsOf r).length < fuel →
      (kahnLoop g e fuel d q r).length
        = r.length + ((idsOf g).length - (idsOf r).length) := by
  intro fuel
  induction fuel with
  | zero =>
    intro d q r _ hfuel
    omega
  | succ f ih =>
    intro d q r hinv hfuel
    obtain ⟨inv1, inv2, inv3, inv4, inv5, inv6, inv7⟩ := hinv
    obtain ⟨hEnd, hqnd, hEq⟩ := List.nodup_append.1 inv2
    cases hs : sortStrings q with
    | nil =>
      have hqnil : q = [] := by
        have h := sortStrings_perm q
        rw [hs] at h
        exact (h.symm).eq_nil
      rw [kahnLoop_nil g e f d q r hs]
      have hall : ∀ n ∈ idsOf g, n ∈ idsOf r := by
        by_contra hc
        push_neg at hc
        obtain ⟨n0, hn0g, hn0r⟩ := hc
        have hn0S : n0 ∈ (idsOf g).filter (fun m => !(decide (m ∈ idsOf r))) :=
          List.mem_filter.2 ⟨hn0g, by simp [hn0r]⟩
        obtain ⟨n, hnS, hmin⟩ := exists_min_rank kahnRank _ (List.ne_nil_of_mem hn0S)
        obtain ⟨hng, hnr⟩ : n ∈ idsOf g ∧ n ∉ idsOf r := by
          have h := List.mem_filter.1 hnS
          exact ⟨h.1, by simpa using h.2⟩
        have hdn : 0 < d n := inv5 n hng hnr (by rw [hqnil]; simp)
        rw [inv1 n] at hdn
        have hlt : e.countP (fun p => p.2 == n && decide (p.1 ∈ idsOf r))
            < e.countP (fun p => p.2 == n) := by
          have h1 : cntTgt e n = e.countP (fun p => p.2 == n) :=
            (List.countP_eq_length_filter _ _).symm
          have h2 : cntEm e (idsOf r) n
              = e.countP (fun p => p.2 == n && decide (p.1 ∈ idsOf r)) :=
            (List.countP_eq_length_filter _ _).symm
          rw [h1, h2] at hdn
          omega
        obtain ⟨p, hpe, hpA, hpB⟩ := exists_of_countP_and_lt _ _ e hlt
        have hp2 : p.2 = n := by simpa using hpA
        have hp1r : p.1 ∉ idsOf r := by
          intro hmm
          rw [decide_eq_true hmm] at hpB
          cases hpB
        obtain ⟨hp1g, hp2g, hrank⟩ := hedge p hpe
        have hp1S : p.1 ∈ (idsOf g).filter (fun m => !(decide (m ∈ idsOf r))) :=
          List.mem_filter.2 ⟨hp1g, by simp [hp1r]⟩
        have := hmin p.1 hp1S
        rw [hp2] at hrank
        omega
      have hlen : (idsOf r).length = (idsOf g).length := by
        have h1 : (idsOf r).length ≤ (idsOf g).length :=
          (hEnd.subperm inv4).length_le
        have h2 : (idsOf g).length ≤ (idsOf r).length :=
          (hids.subperm hall).length_le
        omega
      rw [hlen]
      omega
    | cons current rest =>
      have hqperm : q.Perm (current :: rest) := by
        have h := sortStrings_perm q
        rw [hs] at h
        exact h.symm
      have hcq : current ∈ q := hqperm.mem_iff.2 (List.mem_cons_self _ _)
      have hcg : current ∈ idsOf g := inv3 current hcq
      have hcr : current ∉ idsOf r := fun hmem => hEq hmem hcq
      have hcrest : current ∉ rest ∧ rest.Nodup := by
        have h := (hqperm.nodup_iff).1 hqnd
        exact ⟨(List.nodup_cons.1 h).1, (List.nodup_cons.1 h).2⟩
      obtain ⟨s, hfind, hsid⟩ := lookupG_mem_ids hcg
      rw [kahnLoop_cons g e f d q r current rest hs]
      have hX : (match lookupG g current with
          | some s => { s with order := r.length }
          | none => default) = { s with order := r.length } := by rw [hfind]
      rw [hX]
      obtain ⟨zs, hzq, hznd, hzmem⟩ := foldl_decStep_snd (neighborsOf e current) (d, rest)
      have hD : ∀ n, ((neighborsOf e current).foldl decStep (d, rest)).1 n
          = d n - ((neighborsOf e current).count n : Int) :=
        fun n => foldl_decStep_fst (neighborsOf e current) (d, rest) n
      have hidsr2 : idsOf (r ++ [{ s with order := r.length }]) = idsOf r ++ [current] := by
        unfold idsOf
        rw [List.map_append]
        simp [hsid]
      have hkey : ∀ z, ((neighborsOf e current).count z : Int)
          ≤ (cntTgt e z : Int) - (cntEm e (idsOf r) z : Int) := by
        intro z
        have hdisjBC : ∀ p ∈ e,
            ¬((decide (p.1 ∈ idsOf r)) = true ∧ (p.1 == current) = true) := by
          intro p _
          rintro ⟨h1, h2⟩
          have h1m : p.1 ∈ idsOf r := of_decide_eq_true h1
          have h2e : p.1 = current := by simpa using h2
          rw [h2e] at h1m
          exact hcr h1m
        have hle : e.countP (fun p => p.2 == z && decide (p.1 ∈ idsOf r))
            + e.countP (fun p => p.2 == z && p.1 == current)
            ≤ e.countP (fun p => p.2 == z) := by
          rw [← countP_and_or_split (fun p : String × String => p.2 == z)
            (fun p => decide (p.1 ∈ idsOf r)) (fun p => p.1 == current) e hdisjBC]
          exact countP_and_le _ _ e
        have h1 : cntTgt e z = e.countP (fun p => p.2 == z) :=
          (List.countP_eq_length_filter _ _).symm
        have h2 : cntEm e (idsOf r) z
            = e.countP (fun p => p.2 == z && decide (p.1 ∈ idsOf r)) :=
          (List.countP_eq_length_filter _ _).symm
        rw [h1, h2, nb_count_eq]
        omega
      have hzfacts : ∀ z ∈ zs, z ∈ neighborsOf e current ∧ 1 ≤ d z
          ∧ d z ≤ ((neighborsOf e current).count z : Int) := fun z hz => (hzmem z).1 hz
      -- the new invariant
      have hinv2 : kahnInv g e ((neighborsOf e current).foldl decStep (d, rest)).1
          ((neighborsOf e current).foldl decStep (d, rest)).2
          (r ++ [{ s with order := r.length }]) := by
        rw [hzq]
        refine ⟨?_, ?_, ?_, ?_, ?_, ?_, ?_⟩
        · intro n
          rw [hD n, inv1 n, hidsr2, cntEm_append_one e (idsOf r) current n hcr, nb_count_eq]
          push_cast
          ring
        · rw [hidsr2]
          rw [List.append_assoc]
          rw [List.nodup_append]
          refine ⟨hEnd, ?_, ?_⟩
          · -- ([current] ++ (rest ++ zs)).Nodup
            rw [List.nodup_append]
            refine ⟨List.nodup_singleton _, ?_, ?_⟩
            · rw [List.nodup_append]
              refine ⟨hcrest.2, hznd, ?_⟩
              intro x hx hxz
              have hdx : d x = 0 := inv6 x (hqperm.mem_iff.2 (List.mem_cons_of_mem _ hx))
              have := (hzfacts x hxz).2.1
              omega
            · intro x hx
              have hxc : x = current := List.mem_singleton.1 hx
              subst hxc
              intro hmem
              rcases List.mem_append.1 hmem with h | h
              · exact hcrest.1 h
              · have hdc : d x = 0 := inv6 x hcq
                have := (hzfacts x h).2.1
                omega
          · intro x hx hmem
            rcases List.mem_append.1 hmem with h | h
            · rw [List.mem_singleton.1 h] at hx
              exact hcr hx
            · rcases List.mem_append.1 h with h2 | h2
              · exact hEq hx (hqperm.mem_iff.2 (List.mem_cons_of_mem _ h2))
              · have hd1 := inv7 x hx
                have := (hzfacts x h2).2.1
                omega
        · intro n hn
          rcases List.mem_append.1 hn with h | h
          · exact inv3 n (hqperm.mem_iff.2 (List.mem_cons_of_mem _ h))
          · exact nb_mem_ids hedge (hzfacts n h).1
        · intro n hn
          rw [hidsr2] at hn
          rcases List.mem_append.1 hn with h | h
          · exact inv4 n h
          · rw [List.mem_singleton.1 h]
            exact hcg
        · intro n hng hnr hnq
          rw [hidsr2] at hnr
          have hnr2 : n ∉ idsOf r := fun hx => hnr (List.mem_append_left _ hx)
          have hnc : n ≠ current := by
            intro hx
            exact hnr (List.mem_append_right _ (by rw [hx]; simp))
          have hnrest : n ∉ rest := fun hx => hnq (List.mem_append_left _ hx)
          have hnzs : n ∉ zs := fun hx => hnq (List.mem_append_right _ hx)
          have hnq0 : n ∉ q := by
            intro hx
            rcases List.mem_cons.1 (hqperm.mem_iff.1 hx) with h | h
            · exact hnc h
            · exact hnrest h
          have hpos : 0 < d n := inv5 n hng hnr2 hnq0
          rw [hD n]
          by_cases hcnt : (neighborsOf e current).count n = 0
          · rw [hcnt]
            push_cast
            omega
          · have hkn := hkey n
            rw [inv1 n] at hpos ⊢
            have hne : d n ≠ ((neighborsOf e current).count n : Int) := by
              intro heq
              apply hnzs
              apply (hzmem n).2
              have hcpos : 0 < (neighborsOf e current).count n :=
                Nat.pos_of_ne_zero hcnt
              refine ⟨List.count_pos_iff.1 hcpos, ?_, ?_⟩
              · show (1 : Int) ≤ d n
                omega
              · show d n ≤ ((neighborsOf e current).count n : Int)
                omega
            rw [inv1 n] at hne
            omega
        · intro n hn
          rcases List.mem_append.1 hn with h | h
          · have hd0 : d n = 0 := inv6 n (hqperm.mem_iff.2 (List.mem_cons_of_mem _ h))
            have hc0 : (neighborsOf e current).count n = 0 := by
              by_contra hc0
              have hkn := hkey n
              rw [← inv1 n] at hkn
              have : 0 < (neighborsOf e current).count n := Nat.pos_of_ne_zero hc0
              omega
            rw [hD n, hd0, hc0]
            simp
          · have hf := hzfacts n h
            have hkn := hkey n
            rw [← inv1 n] at hkn
            rw [hD n]
            omega
        · intro n hn
          rw [hidsr2] at hn
          rcases List.mem_append.1 hn with h | h
          · have := inv7 n h
            rw [hD n]
            have hc0 : (0 : Int) ≤ ((neighborsOf e current).count n : Int) :=
              Int.natCast_nonneg _
            omega
          · rw [List.mem_singleton.1 h]
            have hd0 : d current = 0 := inv6 current hcq
            have hc0 : (neighborsOf e current).count current = 0 := by
              rw [nb_count_eq]
              rw [List.countP_eq_zero]
              intro p hp
              simp only [Bool.and_eq_true]
              rintro ⟨h1, h2⟩
              have h1e : p.2 = current := by simpa using h1
              have h2e : p.1 = current := by simpa using h2
              have := (hedge p hp).2.2
              rw [h1e, h2e] at this
              omega
            rw [hD current, hd0, hc0]
            simp
      -- lengths
      have hlt : (idsOf r).length < (idsOf g).length := by
        have hnd2 : (idsOf r ++ [current]).Nodup := by
          rw [List.nodup_append]
          exact ⟨hEnd, List.nodup_singleton _, by
            intro x hx hx2
            rw [List.mem_singleton.1 hx2] at hx
            exact hcr hx⟩
        have hsub : (idsOf r ++ [current]) ⊆ idsOf g := by
          intro x hx
          rcases List.mem_append.1 hx with h | h
          · exact inv4 x h
          · rw [List.mem_singleton.1 h]
            exact hcg
        have := (hnd2.subperm hsub).length_le
        rw [List.length_append] at this
        simp at this
        omega
      have hIH := ih _ _ _ hinv2 (by rw [hidsr2, List.length_append]; simp; omega)
      rw [hIH, hidsr2, List.length_append, List.length_append]
      simp
      omega

end planner

namespace planner

theorem kahnRank_migrateApiId (k : String) : kahnRank (migrateApiId k) = 2 := by
  have h : (migrateApiId k).data.head? = some 'm' := by
    unfold migrateApiId
    rw [String.data_append]
    rfl
  unfold kahnRank
  rw [h]
  decide

theorem kahnRank_upgradeChartId (n : String) : kahnRank (upgradeChartId n) = 3 := by
  have h : (upgradeChartId n).data.head? = some 'u' := by
    unfold upgradeChartId
    rw [String.data_append]
    rfl
  unfold kahnRank
  rw [h]
  decide

theorem idsOf_append (l₁ l₂ : List UpgradeStep) : idsOf (l₁ ++ l₂) = idsOf l₁ ++ idsOf l₂ :=
  List.map_append _ _ _

theorem mem_idsOf_addNode (g : List UpgradeStep) (s : UpgradeStep) (n : String) :
    n ∈ idsOf (addNode g s) ↔ n ∈ idsOf g ∨ n = s.id := by
  unfold idsOf addNode
  rw [List.map_append, List.mem_append]
  simp only [List.map_cons, List.map_nil, List.mem_singleton]
  constructor
  · rintro (h | h)
    · obtain ⟨a, ha, hae⟩ := List.mem_map.1 h
      exact Or.inl (List.mem_map.2 ⟨a, (List.mem_filter.1 ha).1, hae⟩)
    · exact Or.inr h
  · rintro (h | h)
    · obtain ⟨a, ha, hae⟩ := List.mem_map.1 h
      by_cases hh : a.id = s.id
      · exact Or.inr (hae ▸ hh)
      · exact Or.inl (List.mem_map.2 ⟨a, List.mem_filter.2 ⟨ha, by simp [hh]⟩, hae⟩)
    · exact Or.inr h

theorem nodup_idsOf_addNode (g : List UpgradeStep) (s : UpgradeStep)
    (h : (idsOf g).Nodup) : (idsOf (addNode g s)).Nodup := by
  unfold idsOf addNode
  rw [List.map_append, List.nodup_append]
  refine ⟨?_, List.nodup_singleton _, ?_⟩
  · have hsub : (g.filter (fun t => t.id != s.id)).Sublist g := List.filter_sublist g
    have h2 : (g.map (fun t => t.id)).Nodup := h
    exact (hsub.map (fun t => t.id)).nodup h2
  · intro x hx hx2
    simp only [List.map_cons, List.map_nil, List.mem_singleton] at hx2
    obtain ⟨a, ha, hae⟩ := List.mem_map.1 hx
    have h2 := (List.mem_filter.1 ha).2
    rw [hx2] at hae
    simp [hae] at h2

theorem idsOf_foldl_addNode_nodup (l : List UpgradeStep) :
    ∀ g : List UpgradeStep, (idsOf g).Nodup → (idsOf (l.foldl addNode g)).Nodup := by
  induction l with
  | nil => intro g h; exact h
  | cons s t ih =>
    intro g h
    exact ih (addNode g s) (nodup_idsOf_addNode g s h)

theorem mem_idsOf_foldl_addNode (l : List UpgradeStep) :
    ∀ (g : List UpgradeStep) (n : String),
      n ∈ idsOf (l.foldl addNode g) ↔ n ∈ idsOf g ∨ n ∈ idsOf l := by
  induction l with
  | nil =>
    intro g n
    simp [idsOf]
  | cons s t ih =>
    intro g n
    rw [show (s :: t).foldl addNode g = t.foldl addNode (addNode g s) from rfl]
    rw [ih (addNode g s) n, mem_idsOf_addNode]
    unfold idsOf
    simp only [List.map_cons, List.mem_cons]
    tauto

theorem mem_foldl_addNode (l : List UpgradeStep) :
    ∀ (g : List UpgradeStep) (s : UpgradeStep),
      s ∈ l.foldl addNode g → s ∈ g ∨ s ∈ l := by
  induction l with
  | nil =>
    intro g s hs
    exact Or.inl hs
  | cons x t ih =>
    intro g s hs
    rcases ih (addNode g x) s hs with h | h
    · unfold addNode at h
      rcases List.mem_append.1 h with h2 | h2
      · exact Or.inl (List.mem_filter.1 h2).1
      · exact Or.inr (List.mem_cons.2 (Or.inl (List.mem_singleton.1 h2)))
    · exact Or.inr (List.mem_cons_of_mem _ h)

theorem foldl_addNode_of_nodup (l : List UpgradeStep) :
    ∀ g : List UpgradeStep, (idsOf (g ++ l)).Nodup → l.foldl addNode g = g ++ l := by
  induction l with
  | nil =>
    intro g _
    simp
  | cons s t ih =>
    intro g hnd
    rw [show (s :: t).foldl addNode g = t.foldl addNode (addNode g s) from rfl]
    have hgs : addNode g s = g ++ [s] := by
      unfold addNode
      congr 1
      apply List.filter_eq_self.2
      intro a ha
      have hane : a.id ≠ s.id := by
        rw [idsOf_append] at hnd
        have hdisj := (List.nodup_append.1 hnd).2.2
        intro he
        apply hdisj (List.mem_map.2 ⟨a, ha, rfl⟩)
        unfold idsOf
        rw [he]
        simp
      simp [hane]
    rw [hgs, ih (g ++ [s]) (by rw [List.append_assoc]; exact hnd)]
    simp

theorem planGraph_eq_foldl (a : analysis.ImpactAssessment)
    (ae : List (String × analysis.DeprecatedAPIImpact)) :
    planGraph a ae = (planSeq a ae).foldl addNode [] := by
  unfold planGraph planSeq
  simp only [List.foldl_append, List.foldl_cons, List.foldl_nil]

theorem idsOf_planApiSteps (ae : List (String × analysis.DeprecatedAPIImpact)) :
    idsOf (planApiSteps ae) = ae.map (fun p => migrateApiId p.1) := by
  unfold idsOf planApiSteps createAPIMigrationSteps
  rw [List.map_map, List.map_map]
  rfl

theorem idsOf_planChartSteps (a : analysis.ImpactAssessment) (apiSteps : List UpgradeStep) :
    idsOf (planChartSteps a apiSteps)
      = a.incompatibleCharts.map (fun c => upgradeChartId c.chartName) := by
  unfold idsOf planChartSteps createChartUpgradeSteps
  rw [List.map_map, List.map_map]
  rfl

theorem idsOf_planSeq (a : analysis.ImpactAssessment)
    (ae : List (String × analysis.DeprecatedAPIImpact)) :
    idsOf (planSeq a ae)
      = ["precheck", "backup"] ++ idsOf (planApiSteps ae)
        ++ idsOf (planChartSteps a (planApiSteps ae))
        ++ ["cluster-upgrade", "validation"] := by
  unfold planSeq
  rw [idsOf_append, idsOf_append, idsOf_append]
  rfl

theorem mem_planGraph_ids (a : analysis.ImpactAssessment)
    (ae : List (String × analysis.DeprecatedAPIImpact)) (n : String) :
    n ∈ idsOf (planGraph a ae) ↔ n ∈ idsOf (planSeq a ae) := by
  rw [planGraph_eq_foldl, mem_idsOf_foldl_addNode]
  simp [idsOf]

theorem nodup_planGraph_ids (a : analysis.ImpactAssessment)
    (ae : List (String × analysis.DeprecatedAPIImpact)) :
    (idsOf (planGraph a ae)).Nodup := by
  rw [planGraph_eq_foldl]
  exact idsOf_foldl_addNode_nodup _ [] (by simp [idsOf])

end planner

namespace planner

theorem addEdge_pred (G : String × String → Prop) (e : List (String × String)) (a b : String)
    (he : ∀ p ∈ e, G p) (hab : G (a, b)) : ∀ p ∈ addEdge e a b, G p := by
  intro p hp
  rcases List.mem_append.1 hp with h | h
  · exact he p h
  · rw [List.mem_singleton.1 h]
    exact hab

theorem foldl_addEdge_pred {β : Type} (G : String × String → Prop) (f1 f2 : β → String)
    (l : List β) :
    ∀ e : List (String × String), (∀ p ∈ e, G p) → (∀ x ∈ l, G (f1 x, f2 x)) →
      ∀ p ∈ l.foldl (fun e x => addEdge e (f1 x) (f2 x)) e, G p := by
  induction l with
  | nil => intro e he _ p hp; exact he p hp
  | cons x t ih =>
    intro e he hl p hp
    exact ih (addEdge e (f1 x) (f2 x))
      (addEdge_pred G e (f1 x) (f2 x) he (hl x (List.mem_cons_self _ _)))
      (fun y hy => hl y (List.mem_cons_of_mem _ hy)) p hp

theorem foldl_nested_pred (G : String × String → Prop)
    (apiSteps : List UpgradeStep) (chartSteps : List UpgradeStep) :
    ∀ e : List (String × String), (∀ p ∈ e, G p) →
      (∀ s ∈ chartSteps, ∀ t ∈ apiSteps, G (t.id, s.id)) →
      ∀ p ∈ chartSteps.foldl
          (fun e s => apiSteps.foldl (fun e t => addEdge e t.id s.id) e) e, G p := by
  induction chartSteps with
  | nil => intro e he _ p hp; exact he p hp
  | cons s t ih =>
    intro e he hl p hp
    rw [List.foldl_cons] at hp
    refine ih (apiSteps.foldl (fun e t => addEdge e t.id s.id) e) ?_ ?_ p hp
    · exact foldl_addEdge_pred G (fun t => t.id) (fun _ => s.id) apiSteps e he
        (fun y hy => hl s (List.mem_cons_self _ _) y hy)
    · exact fun s2 hs2 t2 ht2 => hl s2 (List.mem_cons_of_mem _ hs2) t2 ht2

theorem rank_of_mem_apiSteps {ae : List (String × analysis.DeprecatedAPIImpact)}
    {s : UpgradeStep} (hs : s ∈ planApiSteps ae) : kahnRank s.id = 2 := by
  have h : s.id ∈ idsOf (planApiSteps ae) := List.mem_map.2 ⟨s, hs, rfl⟩
  rw [idsOf_planApiSteps] at h
  obtain ⟨pr, _, hid⟩ := List.mem_map.1 h
  rw [← hid, kahnRank_migrateApiId]

theorem rank_of_mem_chartSteps {a : analysis.ImpactAssessment} {apiSteps : List UpgradeStep}
    {s : UpgradeStep} (hs : s ∈ planChartSteps a apiSteps) : kahnRank s.id = 3 := by
  have h : s.id ∈ idsOf (planChartSteps a apiSteps) := List.mem_map.2 ⟨s, hs, rfl⟩
  rw [idsOf_planChartSteps] at h
  obtain ⟨c, _, hid⟩ := List.mem_map.1 h
  rw [← hid, kahnRank_upgradeChartId]

theorem mem_ids_of_apiStep {a : analysis.ImpactAssessment}
    {ae : List (String × analysis.DeprecatedAPIImpact)} {s : UpgradeStep}
    (hs : s ∈ planApiSteps ae) : s.id ∈ idsOf (planGraph a ae) := by
  rw [mem_planGraph_ids, idsOf_planSeq]
  have h : s.id ∈ idsOf (planApiSteps ae) := List.mem_map.2 ⟨s, hs, rfl⟩
  simp only [List.append_assoc, List.mem_append]
  tauto

theorem mem_ids_of_chartStep {a : analysis.ImpactAssessment}
    {ae : List (String × analysis.DeprecatedAPIImpact)} {s : UpgradeStep}
    (hs : s ∈ planChartSteps a (planApiSteps ae)) : s.id ∈ idsOf (planGraph a ae) := by
  rw [mem_planGraph_ids, idsOf_planSeq]
  have h : s.id ∈ idsOf (planChartSteps a (planApiSteps ae)) := List.mem_map.2 ⟨s, hs, rfl⟩
  simp only [List.append_assoc, List.mem_append]
  tauto

theorem mem_ids_fixed (a : analysis.ImpactAssessment)
    (ae : List (String × analysis.DeprecatedAPIImpact)) :
    "precheck" ∈ idsOf (planGraph a ae) ∧ "backup" ∈ idsOf (planGraph a ae)
      ∧ "cluster-upgrade" ∈ idsOf (planGraph a ae)
      ∧ "validation" ∈ idsOf (planGraph a ae) := by
  refine ⟨?_, ?_, ?_, ?_⟩ <;>
    (rw [mem_planGraph_ids, idsOf_planSeq]; simp)

theorem planEdges_sound (a : analysis.ImpactAssessment)
    (ae : List (String × analysis.DeprecatedAPIImpact)) :
    ∀ p ∈ planEdges a ae,
      p.1 ∈ idsOf (planGraph a ae) ∧ p.2 ∈ idsOf (planGraph a ae)
        ∧ kahnRank p.1 < kahnRank p.2 := by
  have hfix := mem_ids_fixed a ae
  intro p hp
  simp only [planEdges] at hp
  refine addEdge_pred
    (fun q => q.1 ∈ idsOf (planGraph a ae) ∧ q.2 ∈ idsOf (planGraph a ae)
      ∧ kahnRank q.1 < kahnRank q.2) _ _ _
    (foldl_addEdge_pred _ (fun s => s.id) (fun _ => "cluster-upgrade")
      (planChartSteps a (planApiSteps ae)) _
      (foldl_addEdge_pred _ (fun s => s.id) (fun _ => "cluster-upgrade") (planApiSteps ae) _
        (foldl_nested_pred _ (planApiSteps ae) (planChartSteps a (planApiSteps ae)) _
          (foldl_addEdge_pred _ (fun _ => "backup") (fun s => s.id) (planApiSteps ae) _
            (addEdge_pred _ [] _ _ (by intro q hq; cases hq)
              ⟨hfix.1, hfix.2.1, by decide⟩)
            ?_)
          ?_)
        ?_)
      ?_)
    ⟨hfix.2.2.1, hfix.2.2.2, by decide⟩ p hp
  · intro x hx
    refine ⟨hfix.2.1, mem_ids_of_apiStep hx, ?_⟩
    show kahnRank "backup" < kahnRank x.id
    rw [rank_of_mem_apiSteps hx]
    decide
  · intro s hs t ht
    refine ⟨mem_ids_of_apiStep ht, mem_ids_of_chartStep hs, ?_⟩
    show kahnRank t.id < kahnRank s.id
    rw [rank_of_mem_apiSteps ht, rank_of_mem_chartSteps hs]
    decide
  · intro x hx
    refine ⟨mem_ids_of_apiStep hx, hfix.2.2.1, ?_⟩
    show kahnRank x.id < kahnRank "cluster-upgrade"
    rw [rank_of_mem_apiSteps hx]
    decide
  · intro x hx
    refine ⟨mem_ids_of_chartStep hx, hfix.2.2.1, ?_⟩
    show kahnRank x.id < kahnRank "cluster-upgrade"
    rw [rank_of_mem_chartSteps hx]
    decide

end planner

namespace planner

theorem topologicalSort_ok (g : List UpgradeStep) (e : List (String × String))
    (seedPerm : List String)
    (hids : (idsOf g).Nodup)
    (hedge : ∀ p ∈ e, p.1 ∈ idsOf g ∧ p.2 ∈ idsOf g ∧ kahnRank p.1 < kahnRank p.2)
    (hseed : seedPerm.Perm (kahnKeys g e)) :
    topologicalSort g e seedPerm
      = Except.ok (kahnLoop g e (g.length + seedPerm.length + e.length + 1) (inDegreeOf e)
          (seedPerm.filter (fun i => inDegreeOf e i == 0)) [])
      ∧ (kahnLoop g e (g.length + seedPerm.length + e.length + 1) (inDegreeOf e)
          (seedPerm.filter (fun i => inDegreeOf e i == 0)) []).length = g.length := by
  have hsp : seedPerm.Nodup := (hseed.nodup_iff).2 (List.nodup_dedup _)
  have hinv : kahnInv g e (inDegreeOf e)
      (seedPerm.filter (fun i => inDegreeOf e i == 0)) [] := by
    refine ⟨?_, ?_, ?_, ?_, ?_, ?_, ?_⟩
    · intro n
      have h0 : cntEm e (idsOf ([] : List UpgradeStep)) n = 0 := by
        unfold cntEm
        simp [idsOf]
      rw [h0]
      unfold inDegreeOf cntTgt
      simp
    · simp only [idsOf, List.map_nil, List.nil_append]
      exact hsp.filter _
    · intro n hn
      have hmem : n ∈ kahnKeys g e := hseed.subset (List.mem_filter.1 hn).1
      unfold kahnKeys at hmem
      rcases List.mem_append.1 (List.mem_dedup.1 hmem) with h | h
      · exact h
      · obtain ⟨p, hp, hpe⟩ := List.mem_map.1 h
        rw [← hpe]
        exact (hedge p hp).2.1
    · intro n hn
      simp [idsOf] at hn
    · intro n hng _ hnq
      by_cases h : inDegreeOf e n = 0
      · exfalso
        apply hnq
        apply List.mem_filter.2
        refine ⟨?_, by simp [h]⟩
        apply hseed.mem_iff.2
        unfold kahnKeys
        exact List.mem_dedup.2 (List.mem_append_left _ hng)
      · unfold inDegreeOf at h ⊢
        omega
    · intro n hn
      have h := (List.mem_filter.1 hn).2
      simpa using h
    · intro n hn
      simp [idsOf] at hn
  have hfuel : (idsOf g).length - (idsOf ([] : List UpgradeStep)).length
      < g.length + seedPerm.length + e.length + 1 := by
    simp [idsOf]
    omega
  have hlen : (kahnLoop g e (g.length + seedPerm.length + e.length + 1) (inDegreeOf e)
      (seedPerm.filter (fun i => inDegreeOf e i == 0)) []).length = g.length := by
    rw [kahnLoop_complete g e hids hedge _ _ _ _ hinv hfuel]
    simp [idsOf]
  refine ⟨?_, hlen⟩
  simp only [topologicalSort]
  rw [hlen]
  simp

end planner

/-- C8: for every impact assessment — whatever iteration order Go chooses
for the `apiMap` (`apiEnum`) and for the `inDegree` map seeding
(`seedPerm`, any permutation of the key set) — `GeneratePlan` returns
`Except.ok`; the "cycle detected" branch is unreachable because every edge
strictly increases `kahnRank`, so Kahn's algorithm emits all nodes. -/
theorem C8_no_cycle_error (a : analysis.ImpactAssessment)
    (apiEnum : List (String × analysis.DeprecatedAPIImpact)) (seedPerm : List String)
    (hseed : seedPerm.Perm
      (planner.kahnKeys (planner.planGraph a apiEnum) (planner.planEdges a apiEnum))) :
    ∃ plan, planner.GeneratePlan a apiEnum seedPerm = Except.ok plan := by
  obtain ⟨hok, _⟩ := planner.topologicalSort_ok (planner.planGraph a apiEnum)
    (planner.planEdges a apiEnum) seedPerm
    (planner.nodup_planGraph_ids a apiEnum) (planner.planEdges_sound a apiEnum) hseed
  simp only [planner.GeneratePlan]
  rw [hok]
  exact ⟨_, rfl⟩

/-- Witness for C8: the two-finding assessment, the `apiMap` in insertion
order, and a reversed seed enumeration. -/
theorem C8_no_cycle_error_witness :
    ∃ plan, planner.GeneratePlan w8Assessment w8Enum w8Seed = Except.ok plan :=
  C8_no_cycle_error w8Assessment w8Enum w8Seed (List.reverse_perm _)

namespace planner

theorem planGraph_length (a : analysis.ImpactAssessment)
    (ae : List (String × analysis.DeprecatedAPIImpact)) :
    (planGraph a ae).length
      = 2 + (ae.map (fun p => migrateApiId p.1)).dedup.length
        + (a.incompatibleCharts.map (fun c => upgradeChartId c.chartName)).dedup.length + 2 := by
  have hA : ∀ x ∈ (ae.map (fun p => migrateApiId p.1)).dedup, kahnRank x = 2 := by
    intro x hx
    obtain ⟨pr, _, h⟩ := List.mem_map.1 (List.mem_dedup.1 hx)
    rw [← h, kahnRank_migrateApiId]
  have hC : ∀ x ∈ (a.incompatibleCharts.map (fun c => upgradeChartId c.chartName)).dedup,
      kahnRank x = 3 := by
    intro x hx
    obtain ⟨c, _, h⟩ := List.mem_map.1 (List.mem_dedup.1 hx)
    rw [← h, kahnRank_upgradeChartId]
  have hLnd : ((["precheck", "backup"] ++ (ae.map (fun p => migrateApiId p.1)).dedup)
      ++ ((a.incompatibleCharts.map (fun c => upgradeChartId c.chartName)).dedup
        ++ ["cluster-upgrade", "validation"])).Nodup := by
    rw [List.nodup_append]
    refine ⟨?_, ?_, ?_⟩
    · rw [List.nodup_append]
      refine ⟨by decide, List.nodup_dedup _, ?_⟩
      intro x hx hx2
      have h2 := hA x hx2
      rcases List.mem_cons.1 hx with rfl | hx
      · exact absurd h2 (by decide)
      · rw [List.mem_singleton.1 hx] at h2
        exact absurd h2 (by decide)
    · rw [List.nodup_append]
      refine ⟨List.nodup_dedup _, by decide, ?_⟩
      intro x hx hx2
      have h2 := hC x hx
      rcases List.mem_cons.1 hx2 with rfl | hx2
      · exact absurd h2 (by decide)
      · rw [List.mem_singleton.1 hx2] at h2
        exact absurd h2 (by decide)
    · intro x hx hx2
      have hle : kahnRank x ≤ 2 := by
        rcases List.mem_append.1 hx with h | h
        · rcases List.mem_cons.1 h with rfl | h
          · decide
          · rw [List.mem_singleton.1 h]
            decide
        · rw [hA x h]
      have hge : 3 ≤ kahnRank x := by
        rcases List.mem_append.1 hx2 with h | h
        · rw [hC x h]
        · rcases List.mem_cons.1 h with rfl | h
          · decide
          · rw [List.mem_singleton.1 h]
            decide
      omega
  have hmem : ∀ x, x ∈ idsOf (planGraph a ae)
      ↔ x ∈ (["precheck", "backup"] ++ (ae.map (fun p => migrateApiId p.1)).dedup)
        ++ ((a.incompatibleCharts.map (fun c => upgradeChartId c.chartName)).dedup
          ++ ["cluster-upgrade", "validation"]) := by
    intro x
    rw [mem_planGraph_ids, idsOf_planSeq, idsOf_planApiSteps, idsOf_planChartSteps]
    simp only [List.mem_append, List.mem_dedup, List.mem_cons, List.not_mem_nil, or_false]
    tauto
  have hperm := perm_of_nodup_of_mem_iff (nodup_planGraph_ids a ae) hLnd hmem
  have hlen1 : (planGraph a ae).length = (idsOf (planGraph a ae)).length := by
    unfold idsOf
    rw [List.length_map]
  rw [hlen1, hperm.length_eq]
  simp only [List.length_append, List.length_cons, List.length_nil]
  omega

end planner

/-- C2 (amended): the plan holds `2 + N + M + 2` steps where `N` is the
number of distinct API-migration step ids and `M` the number of distinct
chart-upgrade step ids — the node map collapses `IncompatibleCharts`
entries with the same chart name (and API triples whose sanitized ids
collide) into a single node, so the count can be lower than the entry
counts. -/
theorem C2_step_count_amended (a : analysis.ImpactAssessment)
    (apiEnum : List (String × analysis.DeprecatedAPIImpact)) (seedPerm : List String)
    (hapi : apiEnum.Perm (planner.apiPairs a))
    (hseed : seedPerm.Perm
      (planner.kahnKeys (planner.planGraph a apiEnum) (planner.planEdges a apiEnum))) :
    ∃ plan, planner.GeneratePlan a apiEnum seedPerm = Except.ok plan ∧
      plan.totalSteps
        = 2 + ((planner.apiPairs a).map (fun p => planner.migrateApiId p.1)).dedup.length
          + (a.incompatibleCharts.map (fun c => planner.upgradeChartId c.chartName)).dedup.length
          + 2 := by
  obtain ⟨hok, hlen⟩ := planner.topologicalSort_ok (planner.planGraph a apiEnum)
    (planner.planEdges a apiEnum) seedPerm
    (planner.nodup_planGraph_ids a apiEnum) (planner.planEdges_sound a apiEnum) hseed
  have hR : (planner.planGraph a apiEnum).length
      = 2 + ((planner.apiPairs a).map (fun p => planner.migrateApiId p.1)).dedup.length
        + (a.incompatibleCharts.map (fun c => planner.upgradeChartId c.chartName)).dedup.length
        + 2 := by
    rw [planner.planGraph_length]
    have hd := ((hapi.map (fun p => planner.migrateApiId p.1)).dedup).length_eq
    omega
  simp only [planner.GeneratePlan]
  rw [hok]
  exact ⟨_, rfl, hlen.trans hR⟩

/-- Counterexample to C2 as stated: an assessment with two
`IncompatibleCharts` entries for the same chart name yields a 5-step plan,
not the claimed `2 + 0 + 2 + 2 = 6`, because both entries map to the node
id `upgrade-chart-foo` and the node map keeps a single node. -/
theorem C2_step_count_counterexample :
    c2Seed.Perm
      (planner.kahnKeys (planner.planGraph c2Assessment (planner.apiPairs c2Assessment))
        (planner.planEdges c2Assessment (planner.apiPairs c2Assessment)))
    ∧ c2Assessment.deprecatedManifestAPIs.length = 0
    ∧ c2Assessment.incompatibleCharts.length = 2
    ∧ (match planner.GeneratePlan c2Assessment (planner.apiPairs c2Assessment) c2Seed with
        | Except.ok p => p.totalSteps
        | Except.error _ => 0) = 5
    ∧ 5 ≠ 2 + 0 + 2 + 2 := by
  refine ⟨?_, ?_, ?_, ?_, ?_⟩ <;> decide

/-- Witness for the amended C2 on the duplicate-chart assessment: the two
entries share one step id, so the plan has `2 + 0 + 1 + 2 = 5` steps. -/
theorem C2_step_count_witness :
    ∃ plan,
      planner.GeneratePlan c2Assessment (planner.apiPairs c2Assessment) c2Seed
        = Except.ok plan ∧
      plan.totalSteps
        = 2 + ((planner.apiPairs c2Assessment).map (fun p => planner.migrateApiId p.1)).dedup.length
          + (c2Assessment.incompatibleCharts.map
              (fun c => planner.upgradeChartId c.chartName)).dedup.length
          + 2 :=
  C2_step_count_amended c2Assessment (planner.apiPairs c2Assessment) c2Seed
    (List.Perm.refl _) (by decide)

namespace planner

theorem view_or {o1 o2 o1' o2' : Option UpgradeStep}
    (h : Option.map stepView o1 = Option.map stepView o2)
    (h' : Option.map stepView o1' = Option.map stepView o2') :
    Option.map stepView (o1.or o1') = Option.map stepView (o2.or o2') := by
  cases o1 with
  | none =>
    cases o2 with
    | none => simpa using h'
    | some y => simp at h
  | some x =>
    cases o2 with
    | none => simp at h
    | some y => simpa using h

theorem lookupG_addNode (g : List UpgradeStep) (x : UpgradeStep) (i : String) :
    lookupG (addNode g x) i = if x.id = i then some x else lookupG g i := by
  unfold lookupG addNode
  rw [List.find?_append]
  by_cases hxi : x.id = i
  · rw [if_pos hxi]
    have h1 : (g.filter (fun t => t.id != x.id)).find? (fun s => s.id == i) = none := by
      rw [List.find?_eq_none]
      intro y hy
      have h2 := (List.mem_filter.1 hy).2
      simp only [bne_iff_ne, ne_eq] at h2
      simp [hxi ▸ h2]
    rw [h1]
    have h2 : List.find? (fun s => s.id == i) [x] = some x :=
      List.find?_cons_of_pos _ (by simp [hxi])
    rw [h2]
    rfl
  · rw [if_neg hxi]
    have h2 : List.find? (fun s => s.id == i) [x] = none := by
      rw [List.find?_eq_none]
      intro y hy
      rw [List.mem_singleton.1 hy]
      simp [hxi]
    rw [h2]
    have h1 : (g.filter (fun t => t.id != x.id)).find? (fun s => s.id == i)
        = g.find? (fun s => s.id == i) := by
      induction g with
      | nil => rfl
      | cons y t ihg =>
        rw [List.filter_cons]
        by_cases hy : y.id = x.id
        · rw [if_neg (by simp [hy])]
          rw [ihg]
          rw [List.find?_cons_of_neg _ (by simp [hy, hxi])]
        · rw [if_pos (by simp [hy])]
          by_cases hyi : y.id = i
          · rw [List.find?_cons_of_pos _ (by simp [hyi]),
              List.find?_cons_of_pos _ (by simp [hyi])]
          · rw [List.find?_cons_of_neg _ (by simp [hyi]),
              List.find?_cons_of_neg _ (by simp [hyi])]
            exact ihg
    rw [h1]
    simp

theorem lookupG_foldl_addNode (l : List UpgradeStep) :
    ∀ (g : List UpgradeStep) (i : String),
      lookupG (l.foldl addNode g) i
        = (l.reverse.find? (fun s => s.id == i)).or (lookupG g i) := by
  induction l with
  | nil =>
    intro g i
    simp
  | cons x t ih =>
    intro g i
    rw [List.foldl_cons, ih (addNode g x) i, lookupG_addNode]
    rw [List.reverse_cons, List.find?_append, Option.or_assoc]
    congr 1
    by_cases hxi : x.id = i
    · rw [if_pos hxi]
      rw [List.find?_cons_of_pos _ (by simp [hxi])]
      rfl
    · rw [if_neg hxi]
      have h2 : List.find? (fun s => s.id == i) [x] = none := by
        rw [List.find?_eq_none]
        intro y hy
        rw [List.mem_singleton.1 hy]
        simp [hxi]
      rw [h2]
      simp

theorem lookupG_planGraph (a : analysis.ImpactAssessment)
    (ae : List (String × analysis.DeprecatedAPIImpact)) (i : String) :
    lookupG (planGraph a ae) i = (planSeq a ae).reverse.find? (fun s => s.id == i) := by
  rw [planGraph_eq_foldl, lookupG_foldl_addNode]
  simp [lookupG]

theorem planApiSteps_eq_map (ae : List (String × analysis.DeprecatedAPIImpact)) :
    planApiSteps ae
      = ae.map (fun p => { mkAPIMigrationStep p.1 p.2 with
          dependencies := (mkAPIMigrationStep p.1 p.2).dependencies ++ ["backup"] }) := by
  unfold planApiSteps createAPIMigrationSteps
  rw [List.map_map]
  rfl

theorem planChartSteps_eq_map (a : analysis.ImpactAssessment) (api : List UpgradeStep) :
    planChartSteps a api
      = a.incompatibleCharts.map (fun c => { mkChartUpgradeStep c with
          dependencies := ((mkChartUpgradeStep c).dependencies ++ ["backup"])
            ++ api.map (fun t => t.id) }) := by
  unfold planChartSteps createChartUpgradeSteps
  rw [List.map_map]
  rfl

theorem planSeq_reverse (a : analysis.ImpactAssessment)
    (ae : List (String × analysis.DeprecatedAPIImpact)) :
    (planSeq a ae).reverse
      = [validationStep,
          clusterUpgradeStep a ((planApiSteps ae).map (fun s => s.id))
            ((planChartSteps a (planApiSteps ae)).map (fun s => s.id))]
        ++ ((planChartSteps a (planApiSteps ae)).reverse
          ++ ((planApiSteps ae).reverse ++ [backupStep, precheckStep])) := by
  unfold planSeq
  rw [List.reverse_append, List.reverse_append, List.reverse_append]
  rfl

theorem find?_eq_of_perm_unique {α : Type} (P : α → Bool) {l1 l2 : List α} (h : l1.Perm l2)
    (huniq : ∀ x ∈ l1, ∀ y ∈ l1, P x = true → P y = true → x = y) :
    l1.find? P = l2.find? P := by
  cases h1 : l1.find? P with
  | none =>
    rw [List.find?_eq_none] at h1
    symm
    rw [List.find?_eq_none]
    intro x hx
    exact h1 x (h.symm.subset hx)
  | some x =>
    have hx1 : x ∈ l1 := List.mem_of_find?_eq_some h1
    have hPx : P x = true := List.find?_some h1
    have h2 : (l2.find? P).isSome = true := by
      rw [List.find?_isSome]
      exact ⟨x, h.subset hx1, hPx⟩
    obtain ⟨y, hy⟩ := Option.isSome_iff_exists.1 h2
    have hy2 : y ∈ l1 := h.symm.subset (List.mem_of_find?_eq_some hy)
    have hPy := List.find?_some hy
    rw [hy, huniq x hx1 y hy2 hPx hPy]

theorem tail_find_view (a : analysis.ImpactAssessment) (X1 Y1 X2 Y2 : List String)
    (i : String) :
    Option.map stepView
        (List.find? (fun s => s.id == i) [validationStep, clusterUpgradeStep a X1 Y1])
      = Option.map stepView
        (List.find? (fun s => s.id == i) [validationStep, clusterUpgradeStep a X2 Y2]) := by
  by_cases hv : ((fun (s : UpgradeStep) => s.id == i) validationStep) = true
  · rw [@List.find?_cons_of_pos _ (fun s => s.id == i) validationStep
        [clusterUpgradeStep a X1 Y1] hv,
      @List.find?_cons_of_pos _ (fun s => s.id == i) validationStep
        [clusterUpgradeStep a X2 Y2] hv]
  · rw [@List.find?_cons_of_neg _ (fun s => s.id == i) validationStep
        [clusterUpgradeStep a X1 Y1] hv,
      @List.find?_cons_of_neg _ (fun s => s.id == i) validationStep
        [clusterUpgradeStep a X2 Y2] hv]
    by_cases hc : ((fun (s : UpgradeStep) => s.id == i) (clusterUpgradeStep a X1 Y1)) = true
    · rw [@List.find?_cons_of_pos _ (fun s => s.id == i) (clusterUpgradeStep a X1 Y1) [] hc,
        @List.find?_cons_of_pos _ (fun s => s.id == i) (clusterUpgradeStep a X2 Y2) [] (by exact hc)]
      rfl
    · rw [@List.find?_cons_of_neg _ (fun s => s.id == i) (clusterUpgradeStep a X1 Y1) [] hc,
        @List.find?_cons_of_neg _ (fun s => s.id == i) (clusterUpgradeStep a X2 Y2) [] (by exact hc)]

theorem chart_find_view (a : analysis.ImpactAssessment) (api1 api2 : List UpgradeStep)
    (i : String) :
    Option.map stepView ((planChartSteps a api1).reverse.find? (fun s => s.id == i))
      = Option.map stepView ((planChartSteps a api2).reverse.find? (fun s => s.id == i)) := by
  rw [planChartSteps_eq_map, planChartSteps_eq_map, ← List.map_reverse, ← List.map_reverse,
    List.find?_map, List.find?_map]
  simp only [Option.map_map]
  rfl

theorem api_find_eq (a : analysis.ImpactAssessment)
    {e1 e2 : List (String × analysis.DeprecatedAPIImpact)}
    (hp1 : e1.Perm (apiPairs a)) (hp2 : e2.Perm (apiPairs a))
    (hinj : ((apiPairs a).map (fun p => migrateApiId p.1)).Nodup) (i : String) :
    (planApiSteps e1).reverse.find? (fun s => s.id == i)
      = (planApiSteps e2).reverse.find? (fun s => s.id == i) := by
  rw [planApiSteps_eq_map, planApiSteps_eq_map, ← List.map_reverse, ← List.map_reverse,
    List.find?_map, List.find?_map]
  congr 1
  apply find?_eq_of_perm_unique
  · exact (e1.reverse_perm).trans (hp1.trans (hp2.symm.trans (e2.reverse_perm).symm))
  · intro x hx y hy hPx hPy
    have hx2 : x ∈ apiPairs a := hp1.subset ((e1.reverse_perm).subset hx)
    have hy2 : y ∈ apiPairs a := hp1.subset ((e1.reverse_perm).subset hy)
    have h1 : migrateApiId x.1 = i := eq_of_beq (by exact hPx)
    have h2 : migrateApiId y.1 = i := eq_of_beq (by exact hPy)
    exact List.inj_on_of_nodup_map hinj hx2 hy2 (h1.trans h2.symm)

theorem planGraph_view_eq (a : analysis.ImpactAssessment)
    {e1 e2 : List (String × analysis.DeprecatedAPIImpact)}
    (hp1 : e1.Perm (apiPairs a)) (hp2 : e2.Perm (apiPairs a))
    (hinj : ((apiPairs a).map (fun p => migrateApiId p.1)).Nodup) :
    ∀ i, Option.map stepView (lookupG (planGraph a e1) i)
      = Option.map stepView (lookupG (planGraph a e2) i) := by
  intro i
  rw [lookupG_planGraph, lookupG_planGraph, planSeq_reverse, planSeq_reverse]
  simp only [List.find?_append]
  refine view_or ?_ (view_or ?_ (view_or ?_ ?_))
  · exact tail_find_view a _ _ _ _ i
  · exact chart_find_view a _ _ i
  · rw [api_find_eq a hp1 hp2 hinj i]
  · rfl

end planner

namespace planner

theorem foldl_to_eq (b : String) (l : List UpgradeStep) :
    ∀ e : List (String × String),
      l.foldl (fun e t => addEdge e t.id b) e = e ++ l.map (fun t => (t.id, b)) := by
  induction l with
  | nil => intro e; simp
  | cons x t ih =>
    intro e
    rw [List.foldl_cons, ih]
    simp [addEdge]

theorem foldl_backup_eq (l : List UpgradeStep) :
    ∀ e : List (String × String),
      l.foldl (fun e s => addEdge e "backup" s.id) e = e ++ l.map (fun s => ("backup", s.id)) := by
  induction l with
  | nil => intro e; simp
  | cons x t ih =>
    intro e
    rw [List.foldl_cons, ih]
    simp [addEdge]

theorem addEdge_perm_congr {x y : List (String × String)} {a b : String} (h : x.Perm y) :
    (addEdge x a b).Perm (addEdge y a b) := by
  unfold addEdge
  exact h.append (List.Perm.refl _)

theorem foldl_nested_perm {api1 api2 : List UpgradeStep}
    (hapi : (api1.map (fun t => t.id)).Perm (api2.map (fun t => t.id))) :
    ∀ cs1 cs2 : List UpgradeStep,
      cs1.map (fun s => s.id) = cs2.map (fun s => s.id) →
      ∀ e1 e2 : List (String × String), e1.Perm e2 →
      (cs1.foldl (fun e s => api1.foldl (fun e t => addEdge e t.id s.id) e) e1).Perm
        (cs2.foldl (fun e s => api2.foldl (fun e t => addEdge e t.id s.id) e) e2) := by
  intro cs1
  induction cs1 with
  | nil =>
    intro cs2 hcs e1 e2 he
    cases cs2 with
    | nil => simpa using he
    | cons s t => simp at hcs
  | cons s1 t1 ih =>
    intro cs2 hcs e1 e2 he
    cases cs2 with
    | nil => simp at hcs
    | cons s2 t2 =>
      simp only [List.map_cons, List.cons.injEq] at hcs
      rw [List.foldl_cons, List.foldl_cons]
      apply ih t2 hcs.2
      rw [foldl_to_eq s1.id api1 e1, foldl_to_eq s2.id api2 e2]
      refine he.append ?_
      rw [hcs.1]
      have h1 : api1.map (fun t => (t.id, s2.id))
          = (api1.map (fun t => t.id)).map (fun j => (j, s2.id)) := by
        rw [List.map_map]
        rfl
      have h2 : api2.map (fun t => (t.id, s2.id))
          = (api2.map (fun t => t.id)).map (fun j => (j, s2.id)) := by
        rw [List.map_map]
        rfl
      rw [h1, h2]
      exact hapi.map _

theorem kahnKeys_perm_ids (g : List UpgradeStep) (e : List (String × String))
    (hids : (idsOf g).Nodup)
    (hedge : ∀ p ∈ e, p.1 ∈ idsOf g ∧ p.2 ∈ idsOf g ∧ kahnRank p.1 < kahnRank p.2) :
    (kahnKeys g e).Perm (idsOf g) := by
  refine perm_of_nodup_of_mem_iff (List.nodup_dedup _) hids ?_
  intro n
  unfold kahnKeys
  rw [List.mem_dedup, List.mem_append]
  constructor
  · rintro (h | h)
    · exact h
    · obtain ⟨p, hp, hpe⟩ := List.mem_map.1 h
      rw [← hpe]
      exact (hedge p hp).2.1
  · intro h
    exact Or.inl h

theorem planEdges_perm (a : analysis.ImpactAssessment)
    {e1 e2 : List (String × analysis.DeprecatedAPIImpact)}
    (hp1 : e1.Perm (apiPairs a)) (hp2 : e2.Perm (apiPairs a)) :
    (planEdges a e1).Perm (planEdges a e2) := by
  have hid1 : (planApiSteps e1).map (fun s => s.id) = e1.map (fun p => migrateApiId p.1) :=
    idsOf_planApiSteps e1
  have hid2 : (planApiSteps e2).map (fun s => s.id) = e2.map (fun p => migrateApiId p.1) :=
    idsOf_planApiSteps e2
  have hidperm : ((planApiSteps e1).map (fun s => s.id)).Perm
      ((planApiSteps e2).map (fun s => s.id)) := by
    rw [hid1, hid2]
    exact (hp1.map _).trans ((hp2.map _).symm)
  have hcs : (planChartSteps a (planApiSteps e1)).map (fun s => s.id)
      = (planChartSteps a (planApiSteps e2)).map (fun s => s.id) := by
    have h1 := idsOf_planChartSteps a (planApiSteps e1)
    have h2 := idsOf_planChartSteps a (planApiSteps e2)
    exact h1.trans h2.symm
  have hm : ((planApiSteps e1).map (fun s => ("backup", s.id))).Perm
      ((planApiSteps e2).map (fun s => ("backup", s.id))) := by
    have c1 : (planApiSteps e1).map (fun s => ("backup", s.id))
        = ((planApiSteps e1).map (fun s => s.id)).map (fun j => ("backup", j)) := by
      rw [List.map_map]
      rfl
    have c2 : (planApiSteps e2).map (fun s => ("backup", s.id))
        = ((planApiSteps e2).map (fun s => s.id)).map (fun j => ("backup", j)) := by
      rw [List.map_map]
      rfl
    rw [c1, c2]
    exact hidperm.map _
  have hA2 : ((planApiSteps e1).map (fun s => (s.id, "cluster-upgrade"))).Perm
      ((planApiSteps e2).map (fun s => (s.id, "cluster-upgrade"))) := by
    have c1 : (planApiSteps e1).map (fun s => (s.id, "cluster-upgrade"))
        = ((planApiSteps e1).map (fun s => s.id)).map (fun j => (j, "cluster-upgrade")) := by
      rw [List.map_map]
      rfl
    have c2 : (planApiSteps e2).map (fun s => (s.id, "cluster-upgrade"))
        = ((planApiSteps e2).map (fun s => s.id)).map (fun j => (j, "cluster-upgrade")) := by
      rw [List.map_map]
      rfl
    rw [c1, c2]
    exact hidperm.map _
  have hC5 : (planChartSteps a (planApiSteps e1)).map (fun s => (s.id, "cluster-upgrade"))
      = (planChartSteps a (planApiSteps e2)).map (fun s => (s.id, "cluster-upgrade")) := by
    have c1 : ∀ api : List UpgradeStep,
        (planChartSteps a api).map (fun s => (s.id, "cluster-upgrade"))
          = ((planChartSteps a api).map (fun s => s.id)).map
              (fun j => (j, "cluster-upgrade")) := by
      intro api
      rw [List.map_map]
      rfl
    rw [c1, c1, hcs]
  simp only [planEdges]
  rw [foldl_backup_eq (planApiSteps e1), foldl_backup_eq (planApiSteps e2),
    foldl_to_eq "cluster-upgrade" (planApiSteps e1),
    foldl_to_eq "cluster-upgrade" (planApiSteps e2),
    foldl_to_eq "cluster-upgrade" (planChartSteps a (planApiSteps e1)),
    foldl_to_eq "cluster-upgrade" (planChartSteps a (planApiSteps e2))]
  refine addEdge_perm_congr ?_
  refine List.Perm.append ?_ (by rw [hC5])
  refine List.Perm.append ?_ hA2
  exact foldl_nested_perm hidperm _ _ hcs _ _ ((List.Perm.refl _).append hm)

theorem renderSteps_congr (xs : List UpgradeStep) :
    ∀ (i : Nat) (ys : List UpgradeStep), xs.map stepView = ys.map stepView →
      renderSteps i xs = renderSteps i ys := by
  induction xs with
  | nil =>
    intro i ys h
    cases ys with
    | nil => rfl
    | cons y u => simp at h
  | cons x t ih =>
    intro i ys h
    cases ys with
    | nil => simp at h
    | cons y u =>
      simp only [List.map_cons, List.cons.injEq] at h
      have h1 : x.stepType = y.stepType := congrArg Prod.fst h.1
      have h2 : x.description = y.description := congrArg Prod.snd h.1
      unfold renderSteps
      rw [h1, h2, ih (i + 1) u h.2]

end planner

/-- C3 (amended): provided the sanitized API step ids are pairwise
distinct (`sanitizeID` does not collide on the `apiMap` keys), two runs of
`GeneratePlan` on the same assessment — with arbitrary Go map iteration
orders for the `apiMap` and the `inDegree` seeding — produce the same
`OrderedUpgradeSteps`, the same step count and the same timeline.  Without
that proviso the surviving node under a colliding id depends on the map
iteration order (see the counterexample). -/
theorem C3_determinism_amended (a : analysis.ImpactAssessment)
    (apiEnum1 apiEnum2 : List (String × analysis.DeprecatedAPIImpact))
    (seed1 seed2 : List String)
    (hp1 : apiEnum1.Perm (planner.apiPairs a)) (hp2 : apiEnum2.Perm (planner.apiPairs a))
    (hs1 : seed1.Perm
      (planner.kahnKeys (planner.planGraph a apiEnum1) (planner.planEdges a apiEnum1)))
    (hs2 : seed2.Perm
      (planner.kahnKeys (planner.planGraph a apiEnum2) (planner.planEdges a apiEnum2)))
    (hinj : ((planner.apiPairs a).map (fun p => planner.migrateApiId p.1)).Nodup) :
    ∃ p1 p2, planner.GeneratePlan a apiEnum1 seed1 = Except.ok p1
      ∧ planner.GeneratePlan a apiEnum2 seed2 = Except.ok p2
      ∧ p1.orderedUpgradeSteps = p2.orderedUpgradeSteps
      ∧ p1.totalSteps = p2.totalSteps
      ∧ p1.timeline = p2.timeline := by
  obtain ⟨hok1, hlen1⟩ := planner.topologicalSort_ok (planner.planGraph a apiEnum1)
    (planner.planEdges a apiEnum1) seed1
    (planner.nodup_planGraph_ids a apiEnum1) (planner.planEdges_sound a apiEnum1) hs1
  obtain ⟨hok2, hlen2⟩ := planner.topologicalSort_ok (planner.planGraph a apiEnum2)
    (planner.planEdges a apiEnum2) seed2
    (planner.nodup_planGraph_ids a apiEnum2) (planner.planEdges_sound a apiEnum2) hs2
  have hEperm := planner.planEdges_perm a hp1 hp2
  have hD : planner.inDegreeOf (planner.planEdges a apiEnum1)
      = planner.inDegreeOf (planner.planEdges a apiEnum2) := by
    funext n
    unfold planner.inDegreeOf
    rw [← List.countP_eq_length_filter, ← List.countP_eq_length_filter,
      List.Perm.countP_eq _ hEperm]
  have hlenG : (planner.planGraph a apiEnum1).length
      = (planner.planGraph a apiEnum2).length := by
    rw [planner.planGraph_length, planner.planGraph_length]
    have hq := (((hp1.trans hp2.symm)).map (fun p => planner.migrateApiId p.1)).dedup.length_eq
    omega
  have hs12 : seed1.Perm seed2 := by
    have hk1 := planner.kahnKeys_perm_ids (planner.planGraph a apiEnum1)
      (planner.planEdges a apiEnum1) (planner.nodup_planGraph_ids a apiEnum1)
      (planner.planEdges_sound a apiEnum1)
    have hk2 := planner.kahnKeys_perm_ids (planner.planGraph a apiEnum2)
      (planner.planEdges a apiEnum2) (planner.nodup_planGraph_ids a apiEnum2)
      (planner.planEdges_sound a apiEnum2)
    have hids12 : (planner.idsOf (planner.planGraph a apiEnum1)).Perm
        (planner.idsOf (planner.planGraph a apiEnum2)) := by
      refine perm_of_nodup_of_mem_iff (planner.nodup_planGraph_ids a apiEnum1)
        (planner.nodup_planGraph_ids a apiEnum2) ?_
      intro n
      rw [planner.mem_planGraph_ids, planner.mem_planGraph_ids,
        planner.idsOf_planSeq, planner.idsOf_planSeq,
        planner.idsOf_planApiSteps, planner.idsOf_planApiSteps,
        planner.idsOf_planChartSteps, planner.idsOf_planChartSteps]
      have hmm := ((hp1.map (fun p => planner.migrateApiId p.1)).trans
        ((hp2.map (fun p => planner.migrateApiId p.1)).symm)).mem_iff (a := n)
      simp only [List.mem_append]
      rw [hmm]
    exact hs1.trans (hk1.trans (hids12.trans (hk2.symm.trans hs2.symm)))
  have hfuel : (planner.planGraph a apiEnum2).length + seed2.length
        + (planner.planEdges a apiEnum2).length + 1
      = (planner.planGraph a apiEnum1).length + seed1.length
        + (planner.planEdges a apiEnum1).length + 1 := by
    have h1 := hs12.length_eq
    have h2 := hEperm.length_eq
    omega
  rw [hfuel, ← hD] at hok2 hlen2
  have hview := planner.kahnLoop_view (planner.planGraph a apiEnum1)
    (planner.planGraph a apiEnum2)
    (planner.planEdges a apiEnum1) (planner.planEdges a apiEnum2)
    (planner.planGraph_view_eq a hp1 hp2 hinj) hEperm
    ((planner.planGraph a apiEnum1).length + seed1.length
      + (planner.planEdges a apiEnum1).length + 1)
    (planner.inDegreeOf (planner.planEdges a apiEnum1))
    (seed1.filter (fun i => planner.inDegreeOf (planner.planEdges a apiEnum1) i == 0))
    (seed2.filter (fun i => planner.inDegreeOf (planner.planEdges a apiEnum1) i == 0))
    [] [] (hs12.filter _) rfl
  set st1 := planner.kahnLoop (planner.planGraph a apiEnum1)
    (planner.planEdges a apiEnum1)
    ((planner.planGraph a apiEnum1).length + seed1.length
      + (planner.planEdges a apiEnum1).length + 1)
    (planner.inDegreeOf (planner.planEdges a apiEnum1))
    (seed1.filter (fun i => planner.inDegreeOf (planner.planEdges a apiEnum1) i == 0))
    [] with hst1
  set st2 := planner.kahnLoop (planner.planGraph a apiEnum2)
    (planner.planEdges a apiEnum2)
    ((planner.planGraph a apiEnum1).length + seed1.length
      + (planner.planEdges a apiEnum1).length + 1)
    (planner.inDegreeOf (planner.planEdges a apiEnum1))
    (seed2.filter (fun i => planner.inDegreeOf (planner.planEdges a apiEnum1) i == 0))
    [] with hst2
  have hlen12 : st1.length = st2.length := by
    have h := congrArg List.length hview
    rw [List.length_map, List.length_map] at h
    exact h
  refine ⟨planner.UpgradePlan.mk a.currentVersion a.targetVersion st1
      (planner.renderSteps 0 st1) (planner.estimateTimeline st1.length) st1.length,
    planner.UpgradePlan.mk a.currentVersion a.targetVersion st2
      (planner.renderSteps 0 st2) (planner.estimateTimeline st2.length) st2.length,
    ?_, ?_, ?_, ?_, ?_⟩
  · simp only [planner.GeneratePlan]
    rw [hok1]
  · simp only [planner.GeneratePlan]
    rw [hok2]
  · exact planner.renderSteps_congr st1 0 st2 hview
  · exact hlen12
  · show planner.estimateTimeline st1.length = planner.estimateTimeline st2.length
    rw [hlen12]

/-- Counterexample to C3 as stated: the assessment holds two manifest API
findings whose keys differ only in the case of the group ("Apps" vs
"apps"); both sanitize to the step id `migrate-api-apps-v1beta1-deployment`,
and the surviving node's description follows the `apiMap` iteration order,
so the two runs emit different `OrderedUpgradeSteps`. -/
theorem C3_determinism_counterexample :
    c3Enum1.Perm (planner.apiPairs c3Assessment)
    ∧ c3Enum2.Perm (planner.apiPairs c3Assessment)
    ∧ c3Seed1.Perm
        (planner.kahnKeys (planner.planGraph c3Assessment c3Enum1)
          (planner.planEdges c3Assessment c3Enum1))
    ∧ c3Seed2.Perm
        (planner.kahnKeys (planner.planGraph c3Assessment c3Enum2)
          (planner.planEdges c3Assessment c3Enum2))
    ∧ (match planner.GeneratePlan c3Assessment c3Enum1 c3Seed1 with
        | Except.ok p => p.orderedUpgradeSteps
        | Except.error _ => [])
      ≠ (match planner.GeneratePlan c3Assessment c3Enum2 c3Seed2 with
        | Except.ok p => p.orderedUpgradeSteps
        | Except.error _ => []) := by
  refine ⟨?_, ?_, ?_, ?_, ?_⟩ <;> decide

/-- Witness for the amended C3: the collision-free two-finding assessment
run under two different `apiMap` orders and two different seed orders. -/
theorem C3_determinism_witness :
    ∃ p1 p2, planner.GeneratePlan w8Assessment w8Enum w8Seed = Except.ok p1
      ∧ planner.GeneratePlan w8Assessment w8Enum2 w8Seed2 = Except.ok p2
      ∧ p1.orderedUpgradeSteps = p2.orderedUpgradeSteps
      ∧ p1.totalSteps = p2.totalSteps
      ∧ p1.timeline = p2.timeline :=
  C3_determinism_amended w8Assessment w8Enum w8Enum2 w8Seed w8Seed2
    (by decide) (by decide) (by decide) (by decide) (by decide)
